import Mathlib

/-
Verification development for the PDF tools backend (src/main.py).

The embedding models:
 - POSIX path strings (os.path.basename, os.path.join, path normalization)
   at the character level, since in this Lean version a String is a
   structure wrapping a List Char;
 - the shared temp directory as an association list from literal path
   strings to file contents (FS);
 - uuid4 identifier generation as an explicit supply of identifier
   strings (ids), with uniqueness/freshness stated as hypotheses where a
   theorem needs them (this models the spec's "collision probability
   negligible" guarantee);
 - the PDF engine (PyPDF2) and image engine (PIL) as availability flags
   plus content-level readers: a PDF file is a list of abstract pages, an
   image file is an abstract datum with a color mode; reading a file whose
   content has the wrong shape raises a generic engine failure, exactly
   as PdfReader / Image.open would;
 - HTTPException(400) as ApiError.invalidInput, HTTPException(500) on
   the import check as ApiError.engineUnavailable,
   HTTPException(404) as ApiError.notFound, and uncaught engine
   exceptions as ApiError.engineFailure.

File writes and os.remove are modeled as always succeeding (I/O faults
such as a write failing halfway are outside the embedding).
-/

/-! ### Character-level path primitives -/

/-- Split a character list on a separator character, like Python's
`str.split(sep)`: `splitOnC '/' "a/b" = ["a","b"]`, keeping empty
components. -/
def splitOnC (sep : Char) : List Char → List (List Char)
  | [] => [[]]
  | c :: rest =>
    if c = sep then [] :: splitOnC sep rest
    else
      match splitOnC sep rest with
      | [] => [[c]]
      | h :: t => (c :: h) :: t

/-- Last element of a list of components (`xs[-1]` in Python); `[]` when
the list is empty. -/
def lastPart : List (List Char) → List Char
  | [] => []
  | [x] => x
  | _ :: y :: t => lastPart (y :: t)

/-- Model of `os.path.basename` for POSIX paths: everything after the
last `/`. -/
def basename (s : String) : String :=
  String.mk (lastPart (splitOnC '/' s.data))

/-- Model of `str.lower`. -/
def lowerStr (s : String) : String :=
  String.mk (s.data.map Char.toLower)

/-- Model of `str.endswith`. -/
def endsWithStr (s suffixStr : String) : Bool :=
  List.isSuffixOf suffixStr.data s.data

/-- Normalize a component list of an absolute path: drop empty and `.`
components, resolve `..` against the accumulated prefix (at the root,
`..` stays at the root, as the real filesystem does). -/
def normAcc : List String → List String → List String
  | acc, [] => acc
  | acc, c :: rest =>
    if c = "" ∨ c = "." then normAcc acc rest
    else if c = ".." then normAcc acc.dropLast rest
    else normAcc (acc ++ [c]) rest

/-- Components of a path string. -/
def partsOf (s : String) : List String :=
  (splitOnC '/' s.data).map String.mk

/-- Normalized components of a path string: the list of directory-entry
names the kernel would traverse resolving the absolute path. -/
def normParts (s : String) : List String :=
  normAcc [] (partsOf s)

/-! ### Lemmas about the path primitives -/

theorem splitOnC_ne_nil (sep : Char) (l : List Char) : splitOnC sep l ≠ [] := by
  induction l with
  | nil => simp [splitOnC]
  | cons c rest ih =>
    simp only [splitOnC]
    by_cases h : c = sep
    · simp [h]
    · simp only [h, if_false]
      cases hr : splitOnC sep rest with
      | nil => simp
      | cons x t => simp

theorem not_mem_of_mem_splitOnC (sep : Char) (l : List Char) :
    ∀ t ∈ splitOnC sep l, sep ∉ t := by
  induction l with
  | nil => intro t ht; simp [splitOnC] at ht; simp [ht]
  | cons c rest ih =>
    intro t ht
    simp only [splitOnC] at ht
    by_cases h : c = sep
    · simp only [h, if_pos rfl] at ht
      rcases List.mem_cons.mp ht with h1 | h1
      · simp [h1]
      · exact ih t h1
    · simp only [h, if_false] at ht
      cases hr : splitOnC sep rest with
      | nil => exact absurd hr (splitOnC_ne_nil sep rest)
      | cons x xs =>
        rw [hr] at ht
        rcases List.mem_cons.mp ht with h1 | h1
        · subst h1
          intro hc
          rcases List.mem_cons.mp hc with h2 | h2
          · exact h h2.symm
          · exact ih x (by rw [hr]; exact List.mem_cons_self x xs) h2
        · exact ih t (by rw [hr]; exact List.mem_cons_of_mem x h1)

theorem splitOnC_append (sep : Char) (l₁ l₂ : List Char) :
    splitOnC sep (l₁ ++ sep :: l₂) = splitOnC sep l₁ ++ splitOnC sep l₂ := by
  induction l₁ with
  | nil => simp [splitOnC]
  | cons c t ih =>
    simp only [List.cons_append, splitOnC]
    by_cases h : c = sep
    · simp [h, ih]
    · simp only [h, if_false]
      cases hr : splitOnC sep t with
      | nil => exact absurd hr (splitOnC_ne_nil sep t)
      | cons x xs => simp only [List.append_eq]; rw [ih, hr]; simp

theorem splitOnC_of_not_mem (sep : Char) (l : List Char) (h : sep ∉ l) :
    splitOnC sep l = [l] := by
  induction l with
  | nil => simp [splitOnC]
  | cons c t ih =>
    have hc : c ≠ sep := fun he => h (by simp [he])
    have ht : sep ∉ t := fun he => h (List.mem_cons_of_mem c he)
    simp [splitOnC, hc, ih ht]

theorem lastPart_cons_cons (x y : List Char) (t : List (List Char)) :
    lastPart (x :: y :: t) = lastPart (y :: t) := rfl

theorem lastPart_mem (l : List (List Char)) (h : l ≠ []) : lastPart l ∈ l := by
  induction l with
  | nil => exact absurd rfl h
  | cons x t ih =>
    cases t with
    | nil => simp [lastPart]
    | cons y s =>
      rw [lastPart_cons_cons]
      exact List.mem_cons_of_mem x (ih (by simp))

theorem lastPart_append (l₁ l₂ : List (List Char)) (h : l₂ ≠ []) :
    lastPart (l₁ ++ l₂) = lastPart l₂ := by
  induction l₁ with
  | nil => simp
  | cons x t ih =>
    cases ht : t ++ l₂ with
    | nil =>
      rcases List.append_eq_nil.mp ht with ⟨_, h2⟩
      exact absurd h2 h
    | cons y s =>
      calc lastPart (x :: t ++ l₂) = lastPart (x :: (t ++ l₂)) := by simp
        _ = lastPart (t ++ l₂) := by rw [ht, lastPart_cons_cons]
        _ = lastPart l₂ := ih

theorem string_data_append (a b : String) : (a ++ b).data = a.data ++ b.data := rfl

theorem string_mk_data (s : String) : String.mk s.data = s := rfl

theorem basename_no_slash (s : String) : ('/' : Char) ∉ (basename s).data := by
  unfold basename
  exact not_mem_of_mem_splitOnC '/' s.data _
    (lastPart_mem _ (splitOnC_ne_nil '/' s.data))

theorem basename_of_no_slash (s : String) (h : ('/' : Char) ∉ s.data) :
    basename s = s := by
  unfold basename
  rw [splitOnC_of_not_mem '/' s.data h]
  rfl

/-! ### The temp root and its resolved components -/

/-- The shared temp directory of src/main.py. -/
def TEMP_DIR : String := "/tmp/processed_files"

/-- Normalized components of the temp root. -/
def tempRootParts : List String := ["tmp", "processed_files"]

theorem partsOf_temp (name : String) (h : ('/' : Char) ∉ name.data) :
    partsOf (TEMP_DIR ++ "/" ++ name) = ["", "tmp", "processed_files", name] := by
  unfold partsOf
  have hd : (TEMP_DIR ++ "/" ++ name).data = TEMP_DIR.data ++ '/' :: name.data := by
    rw [string_data_append, string_data_append]
    simp [TEMP_DIR]
  rw [hd, splitOnC_append]
  have h1 : splitOnC '/' TEMP_DIR.data =
      [[], ("tmp" : String).data, ("processed_files" : String).data] := by decide
  rw [h1, splitOnC_of_not_mem '/' name.data h]
  simp [string_mk_data]

theorem normAcc_cons (acc : List String) (c : String) (rest : List String) :
    normAcc acc (c :: rest) =
      if c = "" ∨ c = "." then normAcc acc rest
      else if c = ".." then normAcc acc.dropLast rest
      else normAcc (acc ++ [c]) rest := rfl

theorem normParts_temp_name (name : String) (h : ('/' : Char) ∉ name.data)
    (h1 : name ≠ "") (h2 : name ≠ ".") (h3 : name ≠ "..") :
    normParts (TEMP_DIR ++ "/" ++ name) = ["tmp", "processed_files", name] := by
  unfold normParts
  rw [partsOf_temp name h]
  rw [normAcc_cons, if_pos (Or.inl rfl)]
  rw [normAcc_cons, if_neg (by decide), if_neg (by decide)]
  rw [normAcc_cons, if_neg (by decide), if_neg (by decide)]
  rw [normAcc_cons, if_neg (not_or.mpr ⟨h1, h2⟩), if_neg h3]
  rfl

theorem normParts_temp_trivial (name : String) (h : ('/' : Char) ∉ name.data)
    (h1 : name = "" ∨ name = ".") :
    normParts (TEMP_DIR ++ "/" ++ name) = ["tmp", "processed_files"] := by
  unfold normParts
  rw [partsOf_temp name h]
  rw [normAcc_cons, if_pos (Or.inl rfl)]
  rw [normAcc_cons, if_neg (by decide), if_neg (by decide)]
  rw [normAcc_cons, if_neg (by decide), if_neg (by decide)]
  rw [normAcc_cons, if_pos h1]
  rfl

theorem normParts_temp_dotdot (name : String) (h : ('/' : Char) ∉ name.data)
    (h1 : name = "..") :
    normParts (TEMP_DIR ++ "/" ++ name) = ["tmp"] := by
  unfold normParts
  rw [partsOf_temp name h]
  rw [normAcc_cons, if_pos (Or.inl rfl)]
  rw [normAcc_cons, if_neg (by decide), if_neg (by decide)]
  rw [normAcc_cons, if_neg (by decide), if_neg (by decide)]
  rw [normAcc_cons, if_neg (by simp [h1]), if_pos h1]
  rfl

/-! ### Data model -/

/-- An in-memory PIL image: an abstract pixel datum plus a color mode. -/
structure PilImage where
  data : Nat
  mode : String
deriving DecidableEq, Repr

/-- `Image.convert("RGB")`. -/
def convertRGB (im : PilImage) : PilImage :=
  { data := im.data, mode := "RGB" }

/-- Contents of a file in the temp directory: a PDF document (a list of
abstract pages), an image, or raw bytes that neither engine can parse. -/
inductive FileData where
  | pdf (pages : List Nat)
  | img (im : PilImage)
  | raw (bytes : List Nat)
deriving DecidableEq, Repr

/-- One inbound multipart file: a claimed filename and its content. -/
structure UploadedFile where
  filename : String
  content : FileData
deriving DecidableEq, Repr

/-- Error taxonomy of the handlers (HTTPException status classes plus
uncaught engine exceptions). -/
inductive ApiError where
  | invalidInput (detail : String)
  | engineUnavailable (detail : String)
  | notFound (detail : String)
  | engineFailure (detail : String)
deriving DecidableEq, Repr

/-- The JSON body produced by `_make_download`. -/
structure DownloadInfo where
  file_id : String
  filename : String
  download_url : String
deriving DecidableEq, Repr

/-- The `FileResponse` produced by the download handler. -/
structure Served where
  path : String
  filename : String
  media_type : String
deriving DecidableEq, Repr

deriving instance DecidableEq for Except

/-- The temp directory: an association list from literal path strings to
file contents, most recent write first. -/
abbrev FS := List (String × FileData)

/-- Writing a file (`open(dest,"wb")` + full write). -/
def writeFile (p : String) (d : FileData) (fs : FS) : FS := (p, d) :: fs

/-- Reading the file at a path, comparing paths by their normalized
components (as the kernel would). Returns none for directories and
missing files. -/
def readFile (fs : FS) (p : String) : Option FileData :=
  (fs.find? (fun pr => normParts pr.1 == normParts p)).map Prod.snd

/-- `os.remove(p)` with the surrounding `except Exception: pass`:
removes every entry stored at that literal path, does nothing when the
path is absent. -/
def eraseKey (p : String) (fs : FS) : FS :=
  fs.filter (fun pr => !(pr.1 == p))

/-- The `finally:` cleanup loop over a list of saved paths. -/
def removeAll (ps : List String) (fs : FS) : FS :=
  ps.foldl (fun acc p => eraseKey p acc) fs

/-- Directories that always exist under the model: `/`, `/tmp`, and the
temp root itself (created by `os.makedirs` at startup). -/
def dirCandidates : List (List String) := [[], ["tmp"], ["tmp", "processed_files"]]

/-- Model of `os.path.exists`: true for the always-present directories
and for any stored file whose normalized path matches. -/
def pathExistsB (fs : FS) (p : String) : Bool :=
  dirCandidates.contains (normParts p) || fs.any (fun pr => normParts pr.1 == normParts p)

/-! ### The identifier supply and upload store -/

/-- Draw the next generated identifier from the supply (uuid4 calls,
modeled as an explicit list consumed left to right). -/
def takeId : List String → String × List String
  | [] => ("", [])
  | i :: rest => (i, rest)

/-- Extension extraction of `_save_upload`:
`os.path.basename(name).split(".")[-1].lower()`. -/
def extOf (fname : String) : String :=
  lowerStr (String.mk (lastPart (splitOnC '.' (basename fname).data)))

/-- Destination path `_save_upload` writes to for a given generated
identifier: `os.path.join(TEMP_DIR, f"{safe_id}.{ext}")`. -/
def uploadDest (sid fname : String) : String :=
  TEMP_DIR ++ "/" ++ sid ++ "." ++ extOf fname

/-- `_save_upload`: reject an empty filename, otherwise persist the
content under a generated name and return the destination path. -/
def saveUpload (f : UploadedFile) (ids : List String) (fs : FS) :
    Except ApiError (String × List String × FS) :=
  if f.filename = "" then .error (.invalidInput ("File must have a filename"))
  else
    let (sid, ids') := takeId ids
    let dest := uploadDest sid f.filename
    .ok (dest, ids', writeFile dest f.content fs)

/-- `_make_download`: the returned identifier is the artifact's
basename. -/
def mkDownload (file_path label : String) : DownloadInfo :=
  let file_id := basename file_path
  { file_id := file_id, filename := label,
    download_url := "/api/download/" ++ file_id }

/-- `PdfReader(path)`: succeeds with the page list when the file at the
path holds a PDF document, raises otherwise. -/
def pdfReaderAt (p : String) (fs : FS) : Except ApiError (List Nat) :=
  match readFile fs p with
  | some (FileData.pdf pages) => .ok pages
  | some _ => .error (.engineFailure ("PdfReadError"))
  | none => .error (.engineFailure ("FileNotFoundError"))

/-- `Image.open(path)`: succeeds with the image when the file at the
path holds one, raises otherwise. -/
def imageOpenAt (p : String) (fs : FS) : Except ApiError PilImage :=
  match readFile fs p with
  | some (FileData.img im) => .ok im
  | some _ => .error (.engineFailure ("UnidentifiedImageError"))
  | none => .error (.engineFailure ("FileNotFoundError"))

/-! ### Operation handlers -/

/-- The `for f in files:` loop of the merge handler, carried out inside
the `try:` whose `finally:` removes the saved inputs. Returns the
accumulated writer pages, the saved input paths, the remaining
identifier supply and the filesystem. -/
def mergeLoop : List UploadedFile → List Nat → List String → List String → FS →
    Except ApiError (List Nat) × List String × List String × FS
  | [], writer, saved, ids, fs => (.ok writer, saved, ids, fs)
  | f :: rest, writer, saved, ids, fs =>
    if !(endsWithStr (lowerStr f.filename) (".pdf")) then
      (.error (.invalidInput (f.filename ++ " is not a PDF")), saved, ids, fs)
    else
      match saveUpload f ids fs with
      | .error e => (.error e, saved, ids, fs)
      | .ok (p, ids', fs') =>
        match pdfReaderAt p fs' with
        | .error e => (.error e, saved ++ [p], ids', fs')
        | .ok pages => mergeLoop rest (writer ++ pages) (saved ++ [p]) ids' fs'

/-- POST /api/pdf/merge. `engineOk` models whether `from PyPDF2 import
PdfReader, PdfWriter` succeeds. -/
def merge_pdfs (engineOk : Bool) (files : List UploadedFile) (ids : List String)
    (fs : FS) : Except ApiError DownloadInfo × FS :=
  if !engineOk then
    (.error (.engineUnavailable ("PDF engine unavailable")), fs)
  else if files.length < 2 then
    (.error (.invalidInput ("Please upload at least two PDF files to merge")), fs)
  else
    match mergeLoop files [] [] ids fs with
    | (.error e, saved, _, fs1) => (.error e, removeAll saved fs1)
    | (.ok writerPages, saved, ids1, fs1) =>
      let (outId, _) := takeId ids1
      let outPath := TEMP_DIR ++ "/" ++ ("merged_" ++ outId ++ ".pdf")
      let fs2 := writeFile outPath (FileData.pdf writerPages) fs1
      (.ok (mkDownload outPath ("merged_" ++ outId ++ ".pdf")), removeAll saved fs2)

/-- POST /api/pdf/split. `start_page`/`end_page` arrive as integers. -/
def split_pdf (engineOk : Bool) (file : UploadedFile) (start_page end_page : Int)
    (ids : List String) (fs : FS) : Except ApiError DownloadInfo × FS :=
  if !engineOk then
    (.error (.engineUnavailable ("PDF engine unavailable")), fs)
  else if !(endsWithStr (lowerStr file.filename) (".pdf")) then
    (.error (.invalidInput ("Uploaded file must be a PDF")), fs)
  else
    match saveUpload file ids fs with
    | .error e => (.error e, fs)
    | .ok (srcPath, ids1, fs1) =>
      match pdfReaderAt srcPath fs1 with
      | .error e => (.error e, removeAll [srcPath] fs1)
      | .ok pages =>
        if start_page < 1 ∨ end_page < start_page ∨ end_page > (pages.length : Int) then
          (.error (.invalidInput
              ("Invalid page range. Document has " ++ toString pages.length ++ " pages.")),
           removeAll [srcPath] fs1)
        else
          let sel := (pages.drop (start_page - 1).toNat).take (end_page + 1 - start_page).toNat
          let (outId, _) := takeId ids1
          let outPath := TEMP_DIR ++ "/" ++ ("split_" ++ outId ++ ".pdf")
          let fs2 := writeFile outPath (FileData.pdf sel) fs1
          (.ok (mkDownload outPath ("split_" ++ outId ++ ".pdf")), removeAll [srcPath] fs2)

/-- Supported image extensions of the images-to-pdf handler. -/
def imageExts : List String := [".png", ".jpg", ".jpeg", ".webp", ".bmp"]

/-- The `for img in images:` loop of the images-to-pdf handler. -/
def imagesLoop : List UploadedFile → List PilImage → List String → List String → FS →
    Except ApiError (List PilImage) × List String × List String × FS
  | [], acc, saved, ids, fs => (.ok acc, saved, ids, fs)
  | img :: rest, acc, saved, ids, fs =>
    if !(imageExts.any (fun ex => endsWithStr (lowerStr img.filename) ex)) then
      (.error (.invalidInput ("Unsupported image format: " ++ img.filename)), saved, ids, fs)
    else
      match saveUpload img ids fs with
      | .error e => (.error e, saved, ids, fs)
      | .ok (p, ids', fs') =>
        match imageOpenAt p fs' with
        | .error e => (.error e, saved ++ [p], ids', fs')
        | .ok pil => imagesLoop rest (acc ++ [convertRGB pil]) (saved ++ [p]) ids' fs'

/-- POST /api/pdf/images-to-pdf. `engineOk` models whether the
`from PIL import Image` statement succeeds. The `pil_images[0]` access on an empty
accumulator is modeled as the IndexError it would raise (unreachable:
the list is nonempty whenever the loop succeeds on a nonempty input). -/
def images_to_pdf (engineOk : Bool) (images : List UploadedFile) (ids : List String)
    (fs : FS) : Except ApiError DownloadInfo × FS :=
  if !engineOk then
    (.error (.engineUnavailable ("Image engine unavailable")), fs)
  else if images.isEmpty then
    (.error (.invalidInput ("Please upload at least one image")), fs)
  else
    match imagesLoop images [] [] ids fs with
    | (.error e, saved, _, fs1) => (.error e, removeAll saved fs1)
    | (.ok pils, saved, ids1, fs1) =>
      match pils with
      | [] => (.error (.engineFailure ("IndexError")), removeAll saved fs1)
      | first :: rest =>
        let (outId, _) := takeId ids1
        let outPath := TEMP_DIR ++ "/" ++ ("images_" ++ outId ++ ".pdf")
        let fs2 := writeFile outPath (FileData.pdf ((first :: rest).map PilImage.data)) fs1
        (.ok (mkDownload outPath ("images_" ++ outId ++ ".pdf")), removeAll saved fs2)

/-- GET /api/download/{file_id}: strip directory components with
basename, join to the temp root, 404 when nothing exists there,
otherwise stream the file with the identifier as suggested filename. -/
def download_file (file_id : String) (fs : FS) : Except ApiError Served :=
  let safe_name := basename file_id
  let file_path := TEMP_DIR ++ "/" ++ safe_name
  if pathExistsB fs file_path then
    .ok { path := file_path, filename := safe_name, media_type := "application/pdf" }
  else
    .error (.notFound ("File not found or expired"))

/-! ### Specification-side path functions and predicates -/

/-- Normalized components of the path the download handler resolves for
an identifier. -/
def resolvedParts (file_id : String) : List String :=
  normParts (TEMP_DIR ++ "/" ++ basename file_id)

/-- The saved-input destination paths a handler loop would write, id
supply consumed one per file. -/
def savedPathsOf : List UploadedFile → List String → List String
  | [], _ => []
  | f :: rest, ids => uploadDest (takeId ids).1 f.filename :: savedPathsOf rest (takeId ids).2

/-- All paths the merge handler writes on the happy path: the saved
inputs plus the output artifact. -/
def mergeWritePaths (files : List UploadedFile) (ids : List String) : List String :=
  savedPathsOf files ids ++
    [TEMP_DIR ++ "/" ++ ("merged_" ++ (takeId (ids.drop files.length)).1 ++ ".pdf")]

/-- All paths the split handler writes: the saved input plus the output
artifact. -/
def splitWritePaths (file : UploadedFile) (ids : List String) : List String :=
  [uploadDest (takeId ids).1 file.filename,
   TEMP_DIR ++ "/" ++ ("split_" ++ (takeId (ids.drop 1)).1 ++ ".pdf")]

/-- All paths the images-to-pdf handler writes. -/
def imagesWritePaths (imgs : List UploadedFile) (ids : List String) : List String :=
  savedPathsOf imgs ids ++
    [TEMP_DIR ++ "/" ++ ("images_" ++ (takeId (ids.drop imgs.length)).1 ++ ".pdf")]

/-- The identifier supply contains no path separators (true of uuid4
strings). -/
def GoodIds (ids : List String) : Prop := ∀ i ∈ ids, ('/' : Char) ∉ i.data

/-- The paths a handler is about to write are pairwise distinct and not
already present (uuid4 collision freedom). -/
def FreshPaths (ps : List String) (fs : FS) : Prop :=
  ps.Nodup ∧ ∀ p ∈ ps, p ∉ fs.map Prod.fst

/-- Pages of an uploaded file that holds a PDF document. -/
def contentPages (f : UploadedFile) : List Nat :=
  match f.content with
  | FileData.pdf ps => ps
  | _ => []

/-- Image datum of an uploaded file that holds an image. -/
def imageDatum (f : UploadedFile) : Nat :=
  match f.content with
  | FileData.img im => im.data
  | _ => 0

/-- The in-memory image of an uploaded file that holds one. -/
def imageOf (f : UploadedFile) : PilImage :=
  match f.content with
  | FileData.img im => im
  | _ => { data := 0, mode := "" }

/-- Classify a handler result as an InvalidInput (HTTP 400) rejection. -/
def resInvalid {α : Type} : Except ApiError α → Bool
  | .error (.invalidInput _) => true
  | _ => false

/-- Classify a download result as NotFound (HTTP 404). -/
def resNotFound {α : Type} : Except ApiError α → Bool
  | .error (.notFound _) => true
  | _ => false

/-- Classify a bare ApiError as InvalidInput. -/
def errInvalid : ApiError → Bool
  | .invalidInput _ => true
  | _ => false

/-- The page selection the split handler extracts:
`reader.pages[start_page-1 : end_page]`. -/
def splitSel (pages : List Nat) (s e : Int) : List Nat :=
  (pages.drop (s - 1).toNat).take (e + 1 - s).toNat

instance (ids : List String) : Decidable (GoodIds ids) := by
  unfold GoodIds
  infer_instance

instance (ps : List String) (fs : FS) : Decidable (FreshPaths ps fs) := by
  unfold FreshPaths
  infer_instance

/-! ### Filesystem lemmas -/

theorem removeAll_nil (fs : FS) : removeAll [] fs = fs := rfl

theorem removeAll_cons (p : String) (ps : List String) (fs : FS) :
    removeAll (p :: ps) fs = removeAll ps (eraseKey p fs) := rfl

theorem removeAll_snoc (ps : List String) (p : String) (fs : FS) :
    removeAll (ps ++ [p]) fs = eraseKey p (removeAll ps fs) := by
  unfold removeAll
  rw [List.foldl_append]
  rfl

theorem eraseKey_cons_self (p : String) (d : FileData) (fs : FS) :
    eraseKey p ((p, d) :: fs) = eraseKey p fs := by
  simp [eraseKey, List.filter]

theorem eraseKey_cons_ne (p q : String) (d : FileData) (fs : FS) (h : q ≠ p) :
    eraseKey p ((q, d) :: fs) = (q, d) :: eraseKey p fs := by
  have hb : (q == p) = false := beq_false_of_ne h
  simp [eraseKey, List.filter, hb]

theorem eraseKey_of_not_mem (p : String) (fs : FS) (h : p ∉ fs.map Prod.fst) :
    eraseKey p fs = fs := by
  induction fs with
  | nil => rfl
  | cons e t ih =>
    have h1 : e.1 ≠ p := by
      intro he
      exact h (by simp [he.symm])
    have h2 : p ∉ t.map Prod.fst := fun hm => h (by simp [hm])
    calc eraseKey p ((e.1, e.2) :: t) = (e.1, e.2) :: eraseKey p t :=
          eraseKey_cons_ne p e.1 e.2 t h1
      _ = (e.1, e.2) :: t := by rw [ih h2]

theorem keys_eraseKey_subset (p x : String) (fs : FS)
    (h : x ∈ (eraseKey p fs).map Prod.fst) : x ∈ fs.map Prod.fst := by
  rcases List.mem_map.mp h with ⟨e, he, hx⟩
  exact List.mem_map.mpr ⟨e, List.mem_of_mem_filter he, hx⟩

theorem keys_removeAll_subset (ps : List String) (x : String) (fs : FS)
    (h : x ∈ (removeAll ps fs).map Prod.fst) : x ∈ fs.map Prod.fst := by
  induction ps generalizing fs with
  | nil => exact h
  | cons p t ih =>
    rw [removeAll_cons] at h
    exact keys_eraseKey_subset p x fs (ih (eraseKey p fs) h)

theorem removeAll_cons_entry (qs : List String) (p : String) (d : FileData) (fs : FS)
    (h : p ∉ qs) : removeAll qs ((p, d) :: fs) = (p, d) :: removeAll qs fs := by
  induction qs generalizing fs with
  | nil => rfl
  | cons q t ih =>
    have hq : p ≠ q := fun he => h (by simp [he])
    have ht : p ∉ t := fun hm => h (List.mem_cons_of_mem q hm)
    rw [removeAll_cons, eraseKey_cons_ne q p d fs hq, ih (eraseKey q fs) ht,
      removeAll_cons]

theorem removeAll_restore (saved : List String) (p : String) (d : FileData) (fs : FS)
    (hfs : p ∉ fs.map Prod.fst) (hsv : p ∉ saved) :
    removeAll (saved ++ [p]) ((p, d) :: fs) = removeAll saved fs := by
  rw [removeAll_snoc, removeAll_cons_entry saved p d fs hsv, eraseKey_cons_self]
  exact eraseKey_of_not_mem p (removeAll saved fs)
    (fun hm => hfs (keys_removeAll_subset saved p fs hm))

theorem beq_parts_self (p : String) : (normParts p == normParts p) = true := by
  simp

theorem readFile_cons_self (p : String) (d : FileData) (fs : FS) :
    readFile ((p, d) :: fs) p = some d := by
  simp [readFile, List.find?]

/-! ### Upload-store and loop lemmas -/

theorem takeId_snd (ids : List String) : (takeId ids).2 = ids.drop 1 := by
  cases ids <;> rfl

theorem takeId_fst_mem (ids : List String) :
    (takeId ids).1 ∈ ids ∨ (takeId ids).1 = "" := by
  cases ids with
  | nil => exact Or.inr rfl
  | cons i t => exact Or.inl (List.mem_cons_self i t)

theorem pdf_ext_nonempty (s : String)
    (h : endsWithStr (lowerStr s) (".pdf") = true) : s ≠ "" := by
  intro he
  subst he
  exact absurd h (by decide)

theorem img_ext_nonempty (s : String)
    (h : (imageExts.any (fun ex => endsWithStr (lowerStr s) ex)) = true) : s ≠ "" := by
  intro he
  subst he
  exact absurd h (by decide)

theorem saveUpload_ok (f : UploadedFile) (ids : List String) (fs : FS)
    (h : f.filename ≠ "") :
    saveUpload f ids fs = .ok (uploadDest (takeId ids).1 f.filename, (takeId ids).2,
      writeFile (uploadDest (takeId ids).1 f.filename) f.content fs) := by
  simp only [saveUpload, if_neg h]

theorem savedPathsOf_cons (f : UploadedFile) (rest : List UploadedFile)
    (ids : List String) :
    savedPathsOf (f :: rest) ids =
      uploadDest (takeId ids).1 f.filename :: savedPathsOf rest (takeId ids).2 := rfl


theorem mergeLoop_cons_badext (f : UploadedFile) (rest : List UploadedFile)
    (writer : List Nat) (saved ids : List String) (fs : FS)
    (hx : endsWithStr (lowerStr f.filename) (".pdf") = false) :
    mergeLoop (f :: rest) writer saved ids fs =
      (.error (.invalidInput (f.filename ++ " is not a PDF")), saved, ids, fs) := by
  simp [mergeLoop, hx]

theorem mergeLoop_cons_step (f : UploadedFile) (rest : List UploadedFile)
    (writer : List Nat) (saved ids : List String) (fs : FS)
    (hx : endsWithStr (lowerStr f.filename) (".pdf") = true)
    (ps : List Nat) (hc : f.content = FileData.pdf ps) :
    mergeLoop (f :: rest) writer saved ids fs =
      mergeLoop rest (writer ++ ps)
        (saved ++ [uploadDest (takeId ids).1 f.filename]) (takeId ids).2
        ((uploadDest (takeId ids).1 f.filename, f.content) :: fs) := by
  have hne : f.filename ≠ "" := pdf_ext_nonempty f.filename hx
  simp [mergeLoop, hx, saveUpload_ok f ids fs hne, pdfReaderAt, writeFile,
    readFile_cons_self, hc]

theorem mergeLoop_cons_badcontent (f : UploadedFile) (rest : List UploadedFile)
    (writer : List Nat) (saved ids : List String) (fs : FS)
    (hx : endsWithStr (lowerStr f.filename) (".pdf") = true)
    (hc : ∀ ps, f.content ≠ FileData.pdf ps) :
    mergeLoop (f :: rest) writer saved ids fs =
      (.error (.engineFailure ("PdfReadError")),
       saved ++ [uploadDest (takeId ids).1 f.filename], (takeId ids).2,
       (uploadDest (takeId ids).1 f.filename, f.content) :: fs) := by
  have hne : f.filename ≠ "" := pdf_ext_nonempty f.filename hx
  cases hcc : f.content with
  | pdf ps => exact absurd hcc (hc ps)
  | img im =>
    simp [mergeLoop, hx, saveUpload_ok f ids fs hne, pdfReaderAt, writeFile,
      readFile_cons_self, hcc]
  | raw bs =>
    simp [mergeLoop, hx, saveUpload_ok f ids fs hne, pdfReaderAt, writeFile,
      readFile_cons_self, hcc]

theorem mergeLoop_clean (files : List UploadedFile) :
    ∀ (ids : List String) (writer : List Nat) (saved : List String) (fs : FS),
    (∀ p ∈ savedPathsOf files ids, p ∉ fs.map Prod.fst) →
    (savedPathsOf files ids).Nodup →
    (∀ p ∈ savedPathsOf files ids, p ∉ saved) →
    removeAll (mergeLoop files writer saved ids fs).2.1
        (mergeLoop files writer saved ids fs).2.2.2 = removeAll saved fs := by
  induction files with
  | nil => intro ids writer saved fs _ _ _; rfl
  | cons f rest ih =>
    intro ids writer saved fs h1 h2 h3
    by_cases hx : endsWithStr (lowerStr f.filename) (".pdf") = true
    · have hP0 : uploadDest (takeId ids).1 f.filename ∈ savedPathsOf (f :: rest) ids := by
        rw [savedPathsOf_cons]; exact List.mem_cons_self _ _
      have hPfs : uploadDest (takeId ids).1 f.filename ∉ fs.map Prod.fst := h1 _ hP0
      have hPsv : uploadDest (takeId ids).1 f.filename ∉ saved := h3 _ hP0
      have hnd := h2
      rw [savedPathsOf_cons, List.nodup_cons] at hnd
      have hPtail : uploadDest (takeId ids).1 f.filename ∉
          savedPathsOf rest (takeId ids).2 := hnd.1
      cases hc : f.content with
      | pdf ps =>
        rw [mergeLoop_cons_step f rest writer saved ids fs hx ps hc]
        rw [ih (takeId ids).2 (writer ++ ps)
          (saved ++ [uploadDest (takeId ids).1 f.filename])
          ((uploadDest (takeId ids).1 f.filename, f.content) :: fs)
          (by
            intro q hq hm
            simp only [List.map_cons] at hm
            rcases List.mem_cons.mp hm with hm1 | hm1
            · exact hPtail (hm1 ▸ hq)
            · exact h1 q (by rw [savedPathsOf_cons]; exact List.mem_cons_of_mem _ hq) hm1)
          hnd.2
          (by
            intro q hq hm
            rcases List.mem_append.mp hm with hm1 | hm1
            · exact h3 q (by rw [savedPathsOf_cons]; exact List.mem_cons_of_mem _ hq) hm1
            · exact hPtail ((List.mem_singleton.mp hm1) ▸ hq))]
        exact removeAll_restore saved _ f.content fs hPfs hPsv
      | img im =>
        rw [mergeLoop_cons_badcontent f rest writer saved ids fs hx
          (by intro ps hps; rw [hc] at hps; exact FileData.noConfusion hps)]
        exact removeAll_restore saved _ f.content fs hPfs hPsv
      | raw bs =>
        rw [mergeLoop_cons_badcontent f rest writer saved ids fs hx
          (by intro ps hps; rw [hc] at hps; exact FileData.noConfusion hps)]
        exact removeAll_restore saved _ f.content fs hPfs hPsv
    · rw [mergeLoop_cons_badext f rest writer saved ids fs (Bool.eq_false_iff.mpr hx)]

theorem mergeLoop_ok_shape (files : List UploadedFile) :
    ∀ (ids : List String) (writer : List Nat) (saved : List String) (fs : FS)
      (w : List Nat),
    (mergeLoop files writer saved ids fs).1 = .ok w →
    (mergeLoop files writer saved ids fs).2.1 = saved ++ savedPathsOf files ids ∧
    (mergeLoop files writer saved ids fs).2.2.1 = ids.drop files.length := by
  induction files with
  | nil => intro ids writer saved fs w _; simp [mergeLoop, savedPathsOf]
  | cons f rest ih =>
    intro ids writer saved fs w hok
    by_cases hx : endsWithStr (lowerStr f.filename) (".pdf") = true
    · cases hc : f.content with
      | pdf ps =>
        rw [mergeLoop_cons_step f rest writer saved ids fs hx ps hc] at hok ⊢
        rcases ih (takeId ids).2 (writer ++ ps)
          (saved ++ [uploadDest (takeId ids).1 f.filename])
          ((uploadDest (takeId ids).1 f.filename, f.content) :: fs) w hok with ⟨hs, hi⟩
        constructor
        · rw [hs, savedPathsOf_cons, List.append_assoc]
          rfl
        · rw [hi, takeId_snd, List.drop_drop, List.length_cons, Nat.add_comm]
      | img im =>
        rw [mergeLoop_cons_badcontent f rest writer saved ids fs hx
          (by intro ps hps; rw [hc] at hps; exact FileData.noConfusion hps)] at hok
        exact absurd hok (by simp)
      | raw bs =>
        rw [mergeLoop_cons_badcontent f rest writer saved ids fs hx
          (by intro ps hps; rw [hc] at hps; exact FileData.noConfusion hps)] at hok
        exact absurd hok (by simp)
    · rw [mergeLoop_cons_badext f rest writer saved ids fs
        (Bool.eq_false_iff.mpr hx)] at hok
      exact absurd hok (by simp)

theorem mergeLoop_ok_all (files : List UploadedFile) :
    ∀ (ids : List String) (writer : List Nat) (saved : List String) (fs : FS),
    (∀ f ∈ files, endsWithStr (lowerStr f.filename) (".pdf") = true) →
    (∀ f ∈ files, ∃ ps, f.content = FileData.pdf ps) →
    (mergeLoop files writer saved ids fs).1 =
      .ok (writer ++ (files.map contentPages).flatten) := by
  induction files with
  | nil => intro ids writer saved fs _ _; simp [mergeLoop]
  | cons f rest ih =>
    intro ids writer saved fs hext hpdf
    have hx : endsWithStr (lowerStr f.filename) (".pdf") = true :=
      hext f (List.mem_cons_self f rest)
    rcases hpdf f (List.mem_cons_self f rest) with ⟨ps, hc⟩
    rw [mergeLoop_cons_step f rest writer saved ids fs hx ps hc]
    rw [ih (takeId ids).2 (writer ++ ps)
      (saved ++ [uploadDest (takeId ids).1 f.filename])
      ((uploadDest (takeId ids).1 f.filename, f.content) :: fs)
      (fun g hg => hext g (List.mem_cons_of_mem f hg))
      (fun g hg => hpdf g (List.mem_cons_of_mem f hg))]
    have hcp : contentPages f = ps := by simp [contentPages, hc]
    simp [hcp, List.append_assoc]

theorem mergeLoop_invalid_iff (files : List UploadedFile) :
    ∀ (ids : List String) (writer : List Nat) (saved : List String) (fs : FS),
    (∀ f ∈ files, ∃ ps, f.content = FileData.pdf ps) →
    (resInvalid (mergeLoop files writer saved ids fs).1 = true ↔
      ∃ f ∈ files, endsWithStr (lowerStr f.filename) (".pdf") = false) := by
  induction files with
  | nil => intro ids writer saved fs _; simp [mergeLoop, resInvalid]
  | cons f rest ih =>
    intro ids writer saved fs hpdf
    by_cases hx : endsWithStr (lowerStr f.filename) (".pdf") = true
    · rcases hpdf f (List.mem_cons_self f rest) with ⟨ps, hc⟩
      rw [mergeLoop_cons_step f rest writer saved ids fs hx ps hc]
      rw [ih (takeId ids).2 (writer ++ ps)
        (saved ++ [uploadDest (takeId ids).1 f.filename])
        ((uploadDest (takeId ids).1 f.filename, f.content) :: fs)
        (fun g hg => hpdf g (List.mem_cons_of_mem f hg))]
      simp [hx]
    · have hx' : endsWithStr (lowerStr f.filename) (".pdf") = false :=
        Bool.eq_false_iff.mpr hx
      rw [mergeLoop_cons_badext f rest writer saved ids fs hx']
      simp [resInvalid, hx']

/-! ### Further path helpers -/

theorem no_slash_cat (a b : String) (ha : ('/' : Char) ∉ a.data)
    (hb : ('/' : Char) ∉ b.data) : ('/' : Char) ∉ (a ++ b).data := by
  rw [string_data_append]
  intro h
  rcases List.mem_append.mp h with h1 | h1
  · exact ha h1
  · exact hb h1

theorem basename_temp (name : String) (h : ('/' : Char) ∉ name.data) :
    basename (TEMP_DIR ++ "/" ++ name) = name := by
  unfold basename
  have hd : (TEMP_DIR ++ "/" ++ name).data = TEMP_DIR.data ++ '/' :: name.data := by
    rw [string_data_append, string_data_append]
    simp [TEMP_DIR]
  rw [hd, splitOnC_append, splitOnC_of_not_mem '/' name.data h]
  rw [lastPart_append _ _ (by simp)]
  rfl

theorem out_name_no_slash (stem outId : String) (hstem : ('/' : Char) ∉ stem.data)
    (ids : List String) (hid : GoodIds ids) (hmem : outId ∈ ids ∨ outId = "") :
    ('/' : Char) ∉ (stem ++ outId ++ ".pdf").data := by
  have hout : ('/' : Char) ∉ outId.data := by
    rcases hmem with hm | hm
    · exact hid outId hm
    · rw [hm]; simp
  exact no_slash_cat _ _ (no_slash_cat _ _ hstem hout) (by decide)

theorem goodIds_drop (ids : List String) (n : Nat) (hid : GoodIds ids) :
    GoodIds (ids.drop n) :=
  fun i hi => hid i (List.mem_of_mem_drop hi)

/-! ### Merge handler specifications -/

theorem freshPaths_split_app (sp : List String) (o : String) (fs : FS)
    (h : FreshPaths (sp ++ [o]) fs) :
    sp.Nodup ∧ (∀ p ∈ sp, p ∉ fs.map Prod.fst) ∧ o ∉ sp ∧ o ∉ fs.map Prod.fst := by
  rcases h with ⟨hnd, hfr⟩
  rcases List.nodup_append.mp hnd with ⟨h1, _, hdisj⟩
  refine ⟨h1, fun p hp => hfr p (List.mem_append.mpr (Or.inl hp)), ?_, ?_⟩
  · intro ho
    exact hdisj ho (List.mem_singleton.mpr rfl)
  · exact hfr o (List.mem_append.mpr (Or.inr (List.mem_singleton.mpr rfl)))

theorem merge_err_spec (engineOk : Bool) (files : List UploadedFile)
    (ids : List String) (fs : FS) (e : ApiError)
    (hfr : FreshPaths (mergeWritePaths files ids) fs)
    (herr : (merge_pdfs engineOk files ids fs).1 = .error e) :
    (merge_pdfs engineOk files ids fs).2 = fs := by
  rcases freshPaths_split_app _ _ _ hfr with ⟨hnd, hsp, _, _⟩
  cases engineOk with
  | false => rfl
  | true =>
    by_cases hlen : files.length < 2
    · simp [merge_pdfs, hlen]
    · have hclean := mergeLoop_clean files ids [] [] fs hsp hnd (by simp)
      rcases hml : mergeLoop files [] [] ids fs with ⟨r, sv, ids1, fs1⟩
      rw [hml] at hclean
      simp only [merge_pdfs, hlen, if_false, Bool.not_true] at herr ⊢
      rw [hml] at herr ⊢
      cases r with
      | error e' => simpa using hclean
      | ok w => simp at herr

theorem merge_ok_spec (engineOk : Bool) (files : List UploadedFile)
    (ids : List String) (fs : FS) (info : DownloadInfo)
    (hid : GoodIds ids) (hfr : FreshPaths (mergeWritePaths files ids) fs)
    (hok : (merge_pdfs engineOk files ids fs).1 = .ok info) :
    ('/' : Char) ∉ info.file_id.data ∧
    ∃ d, (merge_pdfs engineOk files ids fs).2 =
      (TEMP_DIR ++ "/" ++ info.file_id, d) :: fs := by
  rcases freshPaths_split_app _ _ _ hfr with ⟨hnd, hsp, hosp, _⟩
  cases engineOk with
  | false => exact absurd hok (by simp [merge_pdfs])
  | true =>
    by_cases hlen : files.length < 2
    · exact absurd hok (by simp [merge_pdfs, hlen])
    · have hclean := mergeLoop_clean files ids [] [] fs hsp hnd (by simp)
      rcases hml : mergeLoop files [] [] ids fs with ⟨r, sv, ids1, fs1⟩
      rw [hml] at hclean
      simp only [merge_pdfs, hlen, if_false, Bool.not_true] at hok ⊢
      rw [hml] at hok ⊢
      cases r with
      | error e' => simp at hok
      | ok w =>
        rcases mergeLoop_ok_shape files ids [] [] fs w (by rw [hml]) with ⟨hsv, hids1⟩
        rw [hml] at hsv hids1
        simp only [List.nil_append] at hsv hids1
        subst hsv
        subst hids1
        have hmem := takeId_fst_mem (ids.drop files.length)
        have hname : ('/' : Char) ∉
            (("merged_" ++ (takeId (ids.drop files.length)).1 ++ ".pdf") : String).data :=
          out_name_no_slash ("merged_") (takeId (ids.drop files.length)).1 (by decide)
            (ids.drop files.length) (goodIds_drop ids files.length hid) hmem
      
        rcases hti : takeId (ids.drop files.length) with ⟨outId, idsRest⟩
        rw [hti] at hname hmem
        simp only [hti, writeFile] at hok ⊢
        have hfid : info.file_id = "merged_" ++ outId ++ ".pdf" := by
          have hinfo : mkDownload
              (TEMP_DIR ++ "/" ++ ("merged_" ++ outId ++ ".pdf"))
              ("merged_" ++ outId ++ ".pdf") = info := by
            simpa using hok
          rw [← hinfo]
          simp only [mkDownload]
          exact basename_temp _ hname
        have houtsp : (TEMP_DIR ++ "/" ++ ("merged_" ++ outId ++ ".pdf")) ∉
            savedPathsOf files ids := by
          rw [hti] at hosp
          exact hosp
        refine ⟨by rw [hfid]; exact hname, FileData.pdf w, ?_⟩
        rw [hfid]
        rw [removeAll_cons_entry _ _ _ _ houtsp]
        rw [hclean]
        rfl

theorem merge_full_spec (files : List UploadedFile) (ids : List String) (fs : FS)
    (h2 : 2 ≤ files.length)
    (hext : ∀ f ∈ files, endsWithStr (lowerStr f.filename) (".pdf") = true)
    (hpdf : ∀ f ∈ files, ∃ ps, f.content = FileData.pdf ps)
    (hid : GoodIds ids) (hfr : FreshPaths (mergeWritePaths files ids) fs) :
    ∃ info, (merge_pdfs true files ids fs).1 = .ok info ∧
      (merge_pdfs true files ids fs).2 =
        (TEMP_DIR ++ "/" ++ info.file_id,
         FileData.pdf ((files.map contentPages).flatten)) :: fs := by
  rcases freshPaths_split_app _ _ _ hfr with ⟨hnd, hsp, hosp, _⟩
  have hlen : ¬ files.length < 2 := by omega
  have hclean := mergeLoop_clean files ids [] [] fs hsp hnd (by simp)
  have hwall := mergeLoop_ok_all files ids [] [] fs hext hpdf
  rcases hml : mergeLoop files [] [] ids fs with ⟨r, sv, ids1, fs1⟩
  rw [hml] at hclean hwall
  simp only [List.nil_append] at hwall
  cases r with
  | error e' => exact absurd hwall (by simp)
  | ok w =>
    have hw : w = (files.map contentPages).flatten := by
      simpa using hwall
    subst hw
    rcases mergeLoop_ok_shape files ids [] [] fs _ (by rw [hml]) with ⟨hsv, hids1⟩
    rw [hml] at hsv hids1
    simp only [List.nil_append] at hsv hids1
    subst hsv
    subst hids1
    have hmem := takeId_fst_mem (ids.drop files.length)
    have hname : ('/' : Char) ∉
        (("merged_" ++ (takeId (ids.drop files.length)).1 ++ ".pdf") : String).data :=
      out_name_no_slash ("merged_") (takeId (ids.drop files.length)).1 (by decide)
        (ids.drop files.length) (goodIds_drop ids files.length hid) hmem
    rcases hti : takeId (ids.drop files.length) with ⟨outId, idsRest⟩
    rw [hti] at hname hosp
    refine ⟨mkDownload (TEMP_DIR ++ "/" ++ ("merged_" ++ outId ++ ".pdf"))
      ("merged_" ++ outId ++ ".pdf"), ?_, ?_⟩
    · simp [merge_pdfs, hlen, hml, hti]
    · have hfid : (mkDownload (TEMP_DIR ++ "/" ++ ("merged_" ++ outId ++ ".pdf"))
          ("merged_" ++ outId ++ ".pdf")).file_id = "merged_" ++ outId ++ ".pdf" := by
        simp only [mkDownload]
        exact basename_temp _ hname
      rw [hfid]
      simp only [merge_pdfs, hlen, if_false, Bool.not_true]
      rw [hml]
      simp only [hti, writeFile]
      rw [removeAll_cons_entry _ _ _ _ hosp]
      rw [hclean]
      rfl

/-! ### Split handler specifications -/

theorem removeAll_single_self (p : String) (c : FileData) (fs : FS)
    (h : p ∉ fs.map Prod.fst) : removeAll [p] ((p, c) :: fs) = fs := by
  calc removeAll [p] ((p, c) :: fs) = eraseKey p ((p, c) :: fs) := rfl
    _ = eraseKey p fs := eraseKey_cons_self p c fs
    _ = fs := eraseKey_of_not_mem p fs h

theorem removeAll_single_out (p : String) (c : FileData) (out : String)
    (d : FileData) (fs : FS) (hne : out ≠ p) (h : p ∉ fs.map Prod.fst) :
    removeAll [p] ((out, d) :: (p, c) :: fs) = (out, d) :: fs := by
  calc removeAll [p] ((out, d) :: (p, c) :: fs)
      = eraseKey p ((out, d) :: (p, c) :: fs) := rfl
    _ = (out, d) :: eraseKey p ((p, c) :: fs) := eraseKey_cons_ne p out d _ hne
    _ = (out, d) :: fs := by rw [eraseKey_cons_self, eraseKey_of_not_mem p fs h]

theorem split_badext (file : UploadedFile) (s e : Int) (ids : List String) (fs : FS)
    (hx : endsWithStr (lowerStr file.filename) (".pdf") = false) :
    split_pdf true file s e ids fs =
      (.error (.invalidInput ("Uploaded file must be a PDF")), fs) := by
  simp [split_pdf, hx]

theorem split_reject (file : UploadedFile) (pages : List Nat) (s e : Int)
    (ids : List String) (fs : FS)
    (hx : endsWithStr (lowerStr file.filename) (".pdf") = true)
    (hc : file.content = FileData.pdf pages)
    (hr : s < 1 ∨ e < s ∨ e > (pages.length : Int)) :
    split_pdf true file s e ids fs =
      (.error (.invalidInput
        ("Invalid page range. Document has " ++ toString pages.length ++ " pages.")),
       removeAll [uploadDest (takeId ids).1 file.filename]
         ((uploadDest (takeId ids).1 file.filename, file.content) :: fs)) := by
  have hne : file.filename ≠ "" := pdf_ext_nonempty file.filename hx
  simp [split_pdf, hx, saveUpload_ok file ids fs hne, pdfReaderAt, writeFile,
    readFile_cons_self, hc, hr]

theorem split_accept (file : UploadedFile) (pages : List Nat) (s e : Int)
    (ids : List String) (fs : FS)
    (hx : endsWithStr (lowerStr file.filename) (".pdf") = true)
    (hc : file.content = FileData.pdf pages)
    (hr : ¬(s < 1 ∨ e < s ∨ e > (pages.length : Int))) :
    split_pdf true file s e ids fs =
      (.ok (mkDownload
         (TEMP_DIR ++ "/" ++ ("split_" ++ (takeId (takeId ids).2).1 ++ ".pdf"))
         ("split_" ++ (takeId (takeId ids).2).1 ++ ".pdf")),
       removeAll [uploadDest (takeId ids).1 file.filename]
         ((TEMP_DIR ++ "/" ++ ("split_" ++ (takeId (takeId ids).2).1 ++ ".pdf"),
           FileData.pdf ((pages.drop (s - 1).toNat).take (e + 1 - s).toNat)) ::
          (uploadDest (takeId ids).1 file.filename, file.content) :: fs)) := by
  have hne : file.filename ≠ "" := pdf_ext_nonempty file.filename hx
  simp [split_pdf, hx, saveUpload_ok file ids fs hne, pdfReaderAt, writeFile,
    readFile_cons_self, hc, hr]

theorem split_badcontent (file : UploadedFile) (s e : Int) (ids : List String) (fs : FS)
    (hx : endsWithStr (lowerStr file.filename) (".pdf") = true)
    (hc : ∀ ps, file.content ≠ FileData.pdf ps) :
    split_pdf true file s e ids fs =
      (.error (.engineFailure ("PdfReadError")),
       removeAll [uploadDest (takeId ids).1 file.filename]
         ((uploadDest (takeId ids).1 file.filename, file.content) :: fs)) := by
  have hne : file.filename ≠ "" := pdf_ext_nonempty file.filename hx
  cases hcc : file.content with
  | pdf ps => exact absurd hcc (hc ps)
  | img im =>
    simp [split_pdf, hx, saveUpload_ok file ids fs hne, pdfReaderAt, writeFile,
      readFile_cons_self, hcc]
  | raw bs =>
    simp [split_pdf, hx, saveUpload_ok file ids fs hne, pdfReaderAt, writeFile,
      readFile_cons_self, hcc]

/-! ### Images-to-pdf loop specifications -/

theorem imagesLoop_cons_badext (f : UploadedFile) (rest : List UploadedFile)
    (acc : List PilImage) (saved ids : List String) (fs : FS)
    (hx : (imageExts.any (fun ex => endsWithStr (lowerStr f.filename) ex)) = false) :
    imagesLoop (f :: rest) acc saved ids fs =
      (.error (.invalidInput ("Unsupported image format: " ++ f.filename)),
       saved, ids, fs) := by
  simp [imagesLoop, hx]

theorem imagesLoop_cons_step (f : UploadedFile) (rest : List UploadedFile)
    (acc : List PilImage) (saved ids : List String) (fs : FS)
    (hx : (imageExts.any (fun ex => endsWithStr (lowerStr f.filename) ex)) = true)
    (im : PilImage) (hc : f.content = FileData.img im) :
    imagesLoop (f :: rest) acc saved ids fs =
      imagesLoop rest (acc ++ [convertRGB im])
        (saved ++ [uploadDest (takeId ids).1 f.filename]) (takeId ids).2
        ((uploadDest (takeId ids).1 f.filename, f.content) :: fs) := by
  have hne : f.filename ≠ "" := img_ext_nonempty f.filename hx
  simp [imagesLoop, hx, saveUpload_ok f ids fs hne, imageOpenAt, writeFile,
    readFile_cons_self, hc]

theorem imagesLoop_cons_badcontent (f : UploadedFile) (rest : List UploadedFile)
    (acc : List PilImage) (saved ids : List String) (fs : FS)
    (hx : (imageExts.any (fun ex => endsWithStr (lowerStr f.filename) ex)) = true)
    (hc : ∀ im, f.content ≠ FileData.img im) :
    imagesLoop (f :: rest) acc saved ids fs =
      (.error (.engineFailure ("UnidentifiedImageError")),
       saved ++ [uploadDest (takeId ids).1 f.filename], (takeId ids).2,
       (uploadDest (takeId ids).1 f.filename, f.content) :: fs) := by
  have hne : f.filename ≠ "" := img_ext_nonempty f.filename hx
  cases hcc : f.content with
  | img im => exact absurd hcc (hc im)
  | pdf ps =>
    simp [imagesLoop, hx, saveUpload_ok f ids fs hne, imageOpenAt, writeFile,
      readFile_cons_self, hcc]
  | raw bs =>
    simp [imagesLoop, hx, saveUpload_ok f ids fs hne, imageOpenAt, writeFile,
      readFile_cons_self, hcc]

theorem imagesLoop_clean (imgs : List UploadedFile) :
    ∀ (ids : List String) (acc : List PilImage) (saved : List String) (fs : FS),
    (∀ p ∈ savedPathsOf imgs ids, p ∉ fs.map Prod.fst) →
    (savedPathsOf imgs ids).Nodup →
    (∀ p ∈ savedPathsOf imgs ids, p ∉ saved) →
    removeAll (imagesLoop imgs acc saved ids fs).2.1
        (imagesLoop imgs acc saved ids fs).2.2.2 = removeAll saved fs := by
  induction imgs with
  | nil => intro ids acc saved fs _ _ _; rfl
  | cons f rest ih =>
    intro ids acc saved fs h1 h2 h3
    by_cases hx : (imageExts.any (fun ex => endsWithStr (lowerStr f.filename) ex)) = true
    · have hP0 : uploadDest (takeId ids).1 f.filename ∈ savedPathsOf (f :: rest) ids := by
        rw [savedPathsOf_cons]; exact List.mem_cons_self _ _
      have hPfs : uploadDest (takeId ids).1 f.filename ∉ fs.map Prod.fst := h1 _ hP0
      have hPsv : uploadDest (takeId ids).1 f.filename ∉ saved := h3 _ hP0
      have hnd := h2
      rw [savedPathsOf_cons, List.nodup_cons] at hnd
      have hPtail : uploadDest (takeId ids).1 f.filename ∉
          savedPathsOf rest (takeId ids).2 := hnd.1
      cases hc : f.content with
      | img im =>
        rw [imagesLoop_cons_step f rest acc saved ids fs hx im hc]
        rw [ih (takeId ids).2 (acc ++ [convertRGB im])
          (saved ++ [uploadDest (takeId ids).1 f.filename])
          ((uploadDest (takeId ids).1 f.filename, f.content) :: fs)
          (by
            intro q hq hm
            simp only [List.map_cons] at hm
            rcases List.mem_cons.mp hm with hm1 | hm1
            · exact hPtail (hm1 ▸ hq)
            · exact h1 q (by rw [savedPathsOf_cons]; exact List.mem_cons_of_mem _ hq) hm1)
          hnd.2
          (by
            intro q hq hm
            rcases List.mem_append.mp hm with hm1 | hm1
            · exact h3 q (by rw [savedPathsOf_cons]; exact List.mem_cons_of_mem _ hq) hm1
            · exact hPtail ((List.mem_singleton.mp hm1) ▸ hq))]
        exact removeAll_restore saved _ f.content fs hPfs hPsv
      | pdf ps =>
        rw [imagesLoop_cons_badcontent f rest acc saved ids fs hx
          (by intro im hps; rw [hc] at hps; exact FileData.noConfusion hps)]
        exact removeAll_restore saved _ f.content fs hPfs hPsv
      | raw bs =>
        rw [imagesLoop_cons_badcontent f rest acc saved ids fs hx
          (by intro im hps; rw [hc] at hps; exact FileData.noConfusion hps)]
        exact removeAll_restore saved _ f.content fs hPfs hPsv
    · rw [imagesLoop_cons_badext f rest acc saved ids fs (Bool.eq_false_iff.mpr hx)]

theorem imagesLoop_ok_shape (imgs : List UploadedFile) :
    ∀ (ids : List String) (acc : List PilImage) (saved : List String) (fs : FS)
      (w : List PilImage),
    (imagesLoop imgs acc saved ids fs).1 = .ok w →
    (imagesLoop imgs acc saved ids fs).2.1 = saved ++ savedPathsOf imgs ids ∧
    (imagesLoop imgs acc saved ids fs).2.2.1 = ids.drop imgs.length := by
  induction imgs with
  | nil => intro ids acc saved fs w _; simp [imagesLoop, savedPathsOf]
  | cons f rest ih =>
    intro ids acc saved fs w hok
    by_cases hx : (imageExts.any (fun ex => endsWithStr (lowerStr f.filename) ex)) = true
    · cases hc : f.content with
      | img im =>
        rw [imagesLoop_cons_step f rest acc saved ids fs hx im hc] at hok ⊢
        rcases ih (takeId ids).2 (acc ++ [convertRGB im])
          (saved ++ [uploadDest (takeId ids).1 f.filename])
          ((uploadDest (takeId ids).1 f.filename, f.content) :: fs) w hok with ⟨hs, hi⟩
        constructor
        · rw [hs, savedPathsOf_cons, List.append_assoc]
          rfl
        · rw [hi, takeId_snd, List.drop_drop, List.length_cons, Nat.add_comm]
      | pdf ps =>
        rw [imagesLoop_cons_badcontent f rest acc saved ids fs hx
          (by intro im hps; rw [hc] at hps; exact FileData.noConfusion hps)] at hok
        exact absurd hok (by simp)
      | raw bs =>
        rw [imagesLoop_cons_badcontent f rest acc saved ids fs hx
          (by intro im hps; rw [hc] at hps; exact FileData.noConfusion hps)] at hok
        exact absurd hok (by simp)
    · rw [imagesLoop_cons_badext f rest acc saved ids fs
        (Bool.eq_false_iff.mpr hx)] at hok
      exact absurd hok (by simp)

theorem imagesLoop_ok_all (imgs : List UploadedFile) :
    ∀ (ids : List String) (acc : List PilImage) (saved : List String) (fs : FS),
    (∀ f ∈ imgs, (imageExts.any (fun ex => endsWithStr (lowerStr f.filename) ex)) = true) →
    (∀ f ∈ imgs, ∃ im, f.content = FileData.img im) →
    (imagesLoop imgs acc saved ids fs).1 =
      .ok (acc ++ imgs.map (fun f => convertRGB (imageOf f))) := by
  induction imgs with
  | nil => intro ids acc saved fs _ _; simp [imagesLoop]
  | cons f rest ih =>
    intro ids acc saved fs hext himg
    have hx : (imageExts.any (fun ex => endsWithStr (lowerStr f.filename) ex)) = true :=
      hext f (List.mem_cons_self f rest)
    rcases himg f (List.mem_cons_self f rest) with ⟨im, hc⟩
    rw [imagesLoop_cons_step f rest acc saved ids fs hx im hc]
    rw [ih (takeId ids).2 (acc ++ [convertRGB im])
      (saved ++ [uploadDest (takeId ids).1 f.filename])
      ((uploadDest (takeId ids).1 f.filename, f.content) :: fs)
      (fun g hg => hext g (List.mem_cons_of_mem f hg))
      (fun g hg => himg g (List.mem_cons_of_mem f hg))]
    have hcp : imageOf f = im := by simp [imageOf, hc]
    simp [hcp, List.append_assoc]

/-! ### Images handler specifications -/

theorem images_err_spec (engineOk : Bool) (imgs : List UploadedFile)
    (ids : List String) (fs : FS) (e : ApiError)
    (hfr : FreshPaths (imagesWritePaths imgs ids) fs)
    (herr : (images_to_pdf engineOk imgs ids fs).1 = .error e) :
    (images_to_pdf engineOk imgs ids fs).2 = fs := by
  rcases freshPaths_split_app _ _ _ hfr with ⟨hnd, hsp, _, _⟩
  cases engineOk with
  | false => rfl
  | true =>
    by_cases hemp : imgs.isEmpty = true
    · simp [images_to_pdf, hemp]
    · have hclean := imagesLoop_clean imgs ids [] [] fs hsp hnd (by simp)
      rcases hml : imagesLoop imgs [] [] ids fs with ⟨r, sv, ids1, fs1⟩
      rw [hml] at hclean
      have hemp' : imgs.isEmpty = false := Bool.eq_false_iff.mpr hemp
      simp only [images_to_pdf, hemp', if_false, Bool.not_true] at herr ⊢
      rw [hml] at herr ⊢
      cases r with
      | error e' => simpa using hclean
      | ok pils =>
        cases pils with
        | nil => simpa using hclean
        | cons p1 prest => simp at herr

theorem images_ok_spec (engineOk : Bool) (imgs : List UploadedFile)
    (ids : List String) (fs : FS) (info : DownloadInfo)
    (hid : GoodIds ids) (hfr : FreshPaths (imagesWritePaths imgs ids) fs)
    (hok : (images_to_pdf engineOk imgs ids fs).1 = .ok info) :
    ('/' : Char) ∉ info.file_id.data ∧
    ∃ d, (images_to_pdf engineOk imgs ids fs).2 =
      (TEMP_DIR ++ "/" ++ info.file_id, d) :: fs := by
  rcases freshPaths_split_app _ _ _ hfr with ⟨hnd, hsp, hosp, _⟩
  cases engineOk with
  | false => exact absurd hok (by simp [images_to_pdf])
  | true =>
    by_cases hemp : imgs.isEmpty = true
    · exact absurd hok (by simp [images_to_pdf, hemp])
    · have hclean := imagesLoop_clean imgs ids [] [] fs hsp hnd (by simp)
      rcases hml : imagesLoop imgs [] [] ids fs with ⟨r, sv, ids1, fs1⟩
      rw [hml] at hclean
      have hemp' : imgs.isEmpty = false := Bool.eq_false_iff.mpr hemp
      simp only [images_to_pdf, hemp', if_false, Bool.not_true] at hok ⊢
      rw [hml] at hok ⊢
      cases r with
      | error e' => simp at hok
      | ok pils =>
        cases pils with
        | nil => simp at hok
        | cons p1 prest =>
          rcases imagesLoop_ok_shape imgs ids [] [] fs _ (by rw [hml]) with ⟨hsv, hids1⟩
          rw [hml] at hsv hids1
          simp only [List.nil_append] at hsv hids1
          subst hsv
          subst hids1
          have hmem := takeId_fst_mem (ids.drop imgs.length)
          have hname : ('/' : Char) ∉
              (("images_" ++ (takeId (ids.drop imgs.length)).1 ++ ".pdf") : String).data :=
            out_name_no_slash ("images_") (takeId (ids.drop imgs.length)).1 (by decide)
              (ids.drop imgs.length) (goodIds_drop ids imgs.length hid) hmem
          rcases hti : takeId (ids.drop imgs.length) with ⟨outId, idsRest⟩
          rw [hti] at hname
          simp only [hti, writeFile] at hok ⊢
          have hfid : info.file_id = "images_" ++ outId ++ ".pdf" := by
            have hinfo : mkDownload
                (TEMP_DIR ++ "/" ++ ("images_" ++ outId ++ ".pdf"))
                ("images_" ++ outId ++ ".pdf") = info := by
              simpa using hok
            rw [← hinfo]
            simp only [mkDownload]
            exact basename_temp _ hname
          have houtsp : (TEMP_DIR ++ "/" ++ ("images_" ++ outId ++ ".pdf")) ∉
              savedPathsOf imgs ids := by
            rw [hti] at hosp
            exact hosp
          refine ⟨by rw [hfid]; exact hname,
            FileData.pdf ((p1 :: prest).map PilImage.data), ?_⟩
          rw [hfid]
          rw [removeAll_cons_entry _ _ _ _ houtsp]
          rw [hclean]
          rfl

theorem images_full_spec (imgs : List UploadedFile) (ids : List String) (fs : FS)
    (hne : imgs ≠ [])
    (hext : ∀ f ∈ imgs, (imageExts.any (fun ex => endsWithStr (lowerStr f.filename) ex)) = true)
    (himg : ∀ f ∈ imgs, ∃ im, f.content = FileData.img im)
    (hid : GoodIds ids) (hfr : FreshPaths (imagesWritePaths imgs ids) fs) :
    ∃ info, (images_to_pdf true imgs ids fs).1 = .ok info ∧
      (images_to_pdf true imgs ids fs).2 =
        (TEMP_DIR ++ "/" ++ info.file_id,
         FileData.pdf (imgs.map imageDatum)) :: fs := by
  rcases freshPaths_split_app _ _ _ hfr with ⟨hnd, hsp, hosp, _⟩
  have hemp' : imgs.isEmpty = false := by
    cases imgs with
    | nil => exact absurd rfl hne
    | cons a t => rfl
  have hclean := imagesLoop_clean imgs ids [] [] fs hsp hnd (by simp)
  have hwall := imagesLoop_ok_all imgs ids [] [] fs hext himg
  rcases hml : imagesLoop imgs [] [] ids fs with ⟨r, sv, ids1, fs1⟩
  rw [hml] at hclean hwall
  simp only [List.nil_append] at hwall
  cases r with
  | error e' => exact absurd hwall (by simp)
  | ok pils =>
    have hw : pils = imgs.map (fun f => convertRGB (imageOf f)) := by
      simpa using hwall
    have hdata : pils.map PilImage.data = imgs.map imageDatum := by
      rw [hw, List.map_map]
      refine List.map_congr_left ?_
      intro f hf
      rcases himg f hf with ⟨im, hc⟩
      simp [Function.comp, convertRGB, imageOf, imageDatum, hc]
    cases hpl : pils with
    | nil =>
      rw [hpl] at hw
      cases imgs with
      | nil => exact absurd rfl hne
      | cons a t => exact absurd hw.symm (by simp)
    | cons p1 prest =>
      rcases imagesLoop_ok_shape imgs ids [] [] fs _ (by rw [hml]) with ⟨hsv, hids1⟩
      rw [hml] at hsv hids1
      simp only [List.nil_append] at hsv hids1
      subst hsv
      subst hids1
      have hmem := takeId_fst_mem (ids.drop imgs.length)
      have hname : ('/' : Char) ∉
          (("images_" ++ (takeId (ids.drop imgs.length)).1 ++ ".pdf") : String).data :=
        out_name_no_slash ("images_") (takeId (ids.drop imgs.length)).1 (by decide)
          (ids.drop imgs.length) (goodIds_drop ids imgs.length hid) hmem
      rcases hti : takeId (ids.drop imgs.length) with ⟨outId, idsRest⟩
      rw [hti] at hname hosp
      refine ⟨mkDownload (TEMP_DIR ++ "/" ++ ("images_" ++ outId ++ ".pdf"))
        ("images_" ++ outId ++ ".pdf"), ?_, ?_⟩
      · simp [images_to_pdf, hemp', hml, hpl, hti]
      · have hfid : (mkDownload (TEMP_DIR ++ "/" ++ ("images_" ++ outId ++ ".pdf"))
            ("images_" ++ outId ++ ".pdf")).file_id = "images_" ++ outId ++ ".pdf" := by
          simp only [mkDownload]
          exact basename_temp _ hname
        rw [hfid]
        simp only [images_to_pdf, hemp', if_false, Bool.not_true]
        rw [hml]
        simp only [hpl, hti, writeFile]
        rw [removeAll_cons_entry _ _ _ _ hosp]
        rw [hclean]
        rw [← hpl, hdata]
        rfl

theorem split_fresh_parts (file : UploadedFile) (ids : List String) (fs : FS)
    (hfr : FreshPaths (splitWritePaths file ids) fs) :
    uploadDest (takeId ids).1 file.filename ≠
      TEMP_DIR ++ "/" ++ ("split_" ++ (takeId (ids.drop 1)).1 ++ ".pdf") ∧
    uploadDest (takeId ids).1 file.filename ∉ fs.map Prod.fst ∧
    (TEMP_DIR ++ "/" ++ ("split_" ++ (takeId (ids.drop 1)).1 ++ ".pdf")) ∉
      fs.map Prod.fst := by
  rcases hfr with ⟨hnd, hf⟩
  rcases List.nodup_cons.mp hnd with ⟨hne, _⟩
  refine ⟨fun he => hne (by rw [he]; exact List.mem_singleton.mpr rfl), ?_, ?_⟩
  · exact hf _ (List.mem_cons_self _ _)
  · exact hf _ (List.mem_cons_of_mem _ (List.mem_singleton.mpr rfl))

theorem split_err_spec (engineOk : Bool) (file : UploadedFile) (s e : Int)
    (ids : List String) (fs : FS) (err : ApiError)
    (hfr : FreshPaths (splitWritePaths file ids) fs)
    (herr : (split_pdf engineOk file s e ids fs).1 = .error err) :
    (split_pdf engineOk file s e ids fs).2 = fs := by
  rcases split_fresh_parts file ids fs hfr with ⟨hneq, hsrc, hout⟩
  cases engineOk with
  | false => rfl
  | true =>
    by_cases hx : endsWithStr (lowerStr file.filename) (".pdf") = true
    · cases hcp : file.content with
      | pdf pages =>
        by_cases hr : s < 1 ∨ e < s ∨ e > (pages.length : Int)
        · rw [split_reject file pages s e ids fs hx hcp hr]
          exact removeAll_single_self _ _ fs hsrc
        · rw [split_accept file pages s e ids fs hx hcp hr] at herr
          simp at herr
      | img im =>
        rw [split_badcontent file s e ids fs hx
          (by intro ps hps; rw [hcp] at hps; exact FileData.noConfusion hps)]
        exact removeAll_single_self _ _ fs hsrc
      | raw bs =>
        rw [split_badcontent file s e ids fs hx
          (by intro ps hps; rw [hcp] at hps; exact FileData.noConfusion hps)]
        exact removeAll_single_self _ _ fs hsrc
    · rw [split_badext file s e ids fs (Bool.eq_false_iff.mpr hx)]

theorem split_ok_spec (engineOk : Bool) (file : UploadedFile) (s e : Int)
    (ids : List String) (fs : FS) (info : DownloadInfo)
    (hid : GoodIds ids) (hfr : FreshPaths (splitWritePaths file ids) fs)
    (hok : (split_pdf engineOk file s e ids fs).1 = .ok info) :
    ('/' : Char) ∉ info.file_id.data ∧
    ∃ d, (split_pdf engineOk file s e ids fs).2 =
      (TEMP_DIR ++ "/" ++ info.file_id, d) :: fs := by
  rcases split_fresh_parts file ids fs hfr with ⟨hneq, hsrc, hout⟩
  cases engineOk with
  | false => exact absurd hok (by simp [split_pdf])
  | true =>
    by_cases hx : endsWithStr (lowerStr file.filename) (".pdf") = true
    · cases hcp : file.content with
      | pdf pages =>
        by_cases hr : s < 1 ∨ e < s ∨ e > (pages.length : Int)
        · rw [split_reject file pages s e ids fs hx hcp hr] at hok
          simp at hok
        · have hacc := split_accept file pages s e ids fs hx hcp hr
          rw [hacc] at hok ⊢
          have hmem := takeId_fst_mem (ids.drop 1)
          rw [← takeId_snd ids] at hmem
          have hname : ('/' : Char) ∉
              (("split_" ++ (takeId (takeId ids).2).1 ++ ".pdf") : String).data := by
            refine out_name_no_slash ("split_") (takeId (takeId ids).2).1 (by decide)
              (ids.drop 1) (goodIds_drop ids 1 hid) ?_
            rw [← takeId_snd ids]
            exact hmem
          have hfid : info.file_id =
              "split_" ++ (takeId (takeId ids).2).1 ++ ".pdf" := by
            have hinfo : mkDownload
                (TEMP_DIR ++ "/" ++ ("split_" ++ (takeId (takeId ids).2).1 ++ ".pdf"))
                ("split_" ++ (takeId (takeId ids).2).1 ++ ".pdf") = info := by
              simpa using hok
            rw [← hinfo]
            simp only [mkDownload]
            exact basename_temp _ hname
          refine ⟨by rw [hfid]; exact hname,
            FileData.pdf ((pages.drop (s - 1).toNat).take (e + 1 - s).toNat), ?_⟩
          rw [hfid]
          refine removeAll_single_out _ _ _ _ fs ?_ hsrc
          rw [takeId_snd ids]
          exact fun he => hneq he.symm
      | img im =>
        rw [split_badcontent file s e ids fs hx
          (by intro ps hps; rw [hcp] at hps; exact FileData.noConfusion hps)] at hok
        simp at hok
      | raw bs =>
        rw [split_badcontent file s e ids fs hx
          (by intro ps hps; rw [hcp] at hps; exact FileData.noConfusion hps)] at hok
        simp at hok
    · rw [split_badext file s e ids fs (Bool.eq_false_iff.mpr hx)] at hok
      simp at hok

/-! ### Download handler lemmas -/

theorem download_serves (name : String) (d : FileData) (fs : FS)
    (h : ('/' : Char) ∉ name.data) :
    download_file name ((TEMP_DIR ++ "/" ++ name, d) :: fs) =
      .ok { path := TEMP_DIR ++ "/" ++ name, filename := name,
            media_type := "application/pdf" } := by
  simp only [download_file, basename_of_no_slash name h]
  have hex : pathExistsB ((TEMP_DIR ++ "/" ++ name, d) :: fs)
      (TEMP_DIR ++ "/" ++ name) = true := by
    simp [pathExistsB]
  rw [hex]
  simp

theorem contains_dirs_len3 (x y z : String) (l : List String) :
    dirCandidates.contains (x :: y :: z :: l) = false := by
  simp [dirCandidates]

theorem download_unserved (fid : String) (fs : FS)
    (h1 : basename fid ≠ "") (h2 : basename fid ≠ ".") (h3 : basename fid ≠ "..")
    (hfs : ∀ pr ∈ fs, pr.1 = TEMP_DIR ++ "/" ++ basename pr.1 ∧
      basename pr.1 ≠ "" ∧ basename pr.1 ≠ "." ∧ basename pr.1 ≠ ".." ∧
      basename pr.1 ≠ basename fid) :
    resNotFound (download_file fid fs) = true := by
  have hq : normParts (TEMP_DIR ++ "/" ++ basename fid) =
      ["tmp", "processed_files", basename fid] :=
    normParts_temp_name _ (basename_no_slash fid) h1 h2 h3
  have hdirs : dirCandidates.contains
      (normParts (TEMP_DIR ++ "/" ++ basename fid)) = false := by
    rw [hq]
    exact contains_dirs_len3 _ _ _ _
  have hany : fs.any (fun pr => normParts pr.1 ==
      normParts (TEMP_DIR ++ "/" ++ basename fid)) = false := by
    rw [List.any_eq_false]
    intro pr hpr
    rcases hfs pr hpr with ⟨hshape, hn1, hn2, hn3, hnfid⟩
    have hqpr : normParts pr.1 = ["tmp", "processed_files", basename pr.1] := by
      conv_lhs => rw [hshape]
      exact normParts_temp_name _ (basename_no_slash pr.1) hn1 hn2 hn3
    rw [hqpr, hq]
    simp [hnfid]
  have hex : pathExistsB fs (TEMP_DIR ++ "/" ++ basename fid) = false := by
    unfold pathExistsB
    rw [hdirs, hany]
    rfl
  simp [download_file, hex, resNotFound]

theorem download_notfound_iff (fid : String) (fs : FS) :
    resNotFound (download_file fid fs) = true ↔
      pathExistsB fs (TEMP_DIR ++ "/" ++ basename fid) = false := by
  by_cases hex : pathExistsB fs (TEMP_DIR ++ "/" ++ basename fid) = true
  · simp [download_file, hex, resNotFound]
  · have hex' := Bool.eq_false_iff.mpr hex
    simp [download_file, hex', resNotFound]

/-! ### Helpers for the path-traversal claim -/

theorem isPrefixOf_root_ext (x : String) :
    tempRootParts.isPrefixOf (["tmp", "processed_files", x]) = true := by
  simp [tempRootParts, List.isPrefixOf]

theorem resolvedParts_inside (fid : String) (h : basename fid ≠ "..") :
    tempRootParts.isPrefixOf (resolvedParts fid) = true := by
  unfold resolvedParts
  by_cases h1 : basename fid = ""
  · rw [normParts_temp_trivial _ (basename_no_slash fid) (Or.inl h1)]
    decide
  · by_cases h2 : basename fid = "."
    · rw [normParts_temp_trivial _ (basename_no_slash fid) (Or.inr h2)]
      decide
    · rw [normParts_temp_name _ (basename_no_slash fid) h1 h2 h]
      exact isPrefixOf_root_ext _

/-! ### Claim theorems -/

/-- C1 (amended): for every identifier whose basename is not the literal
parent-directory component, the path the download handler resolves
(temp root joined with the basename of the identifier, then normalized)
stays inside the temp root; identifiers with path separators such as
"../secret" are covered since their basename carries no separator. The
amendment excludes identifiers whose basename is "..": os.path.basename
keeps ".." intact, and the resolved path then normalizes to the temp
root's parent. -/
theorem c1_resolved_path_inside_root (file_id : String)
    (h : basename file_id ≠ "..") :
    tempRootParts.isPrefixOf (resolvedParts file_id) = true :=
  resolvedParts_inside file_id h

/-- C1 counterexample: the identifier ".." survives os.path.basename
unchanged, and the handler's resolved path normalizes to /tmp — outside
the temp root — refuting the claim as stated. -/
theorem c1_counterexample :
    basename ("..") = ".." ∧
    resolvedParts ("..") = ["tmp"] ∧
    tempRootParts.isPrefixOf (resolvedParts ("..")) = false := by
  refine ⟨by decide, by decide, by decide⟩

/-- C1 witness: the spec's own example "../secret" resolves inside the
temp root. -/
theorem c1_witness :
    basename ("../secret") ≠ ".." ∧
    tempRootParts.isPrefixOf (resolvedParts ("../secret")) = true :=
  ⟨by decide, c1_resolved_path_inside_root ("../secret") (by decide)⟩

/-- C10: in all three operation handlers the engine import check runs
before any input validation: with the engine unavailable every request,
however invalid its input, gets EngineUnavailable (500) and the
filesystem is untouched, so InvalidInput is never reported while the
engine is down. -/
theorem c10_engine_checked_first :
    (∀ (files : List UploadedFile) (ids : List String) (fs : FS),
      merge_pdfs false files ids fs =
        (.error (.engineUnavailable ("PDF engine unavailable")), fs)) ∧
    (∀ (file : UploadedFile) (s e : Int) (ids : List String) (fs : FS),
      split_pdf false file s e ids fs =
        (.error (.engineUnavailable ("PDF engine unavailable")), fs)) ∧
    (∀ (imgs : List UploadedFile) (ids : List String) (fs : FS),
      images_to_pdf false imgs ids fs =
        (.error (.engineUnavailable ("Image engine unavailable")), fs)) :=
  ⟨fun _ _ _ => rfl, fun _ _ _ _ _ => rfl, fun _ _ _ => rfl⟩

/-- C3: with the engine available and the uploaded file a well-formed
PDF document, the split handler reports InvalidInput exactly when the
extension is not .pdf, or start_page < 1, or end_page < start_page, or
end_page exceeds the page count; moreover every page-range rejection
carries the message naming the document's actual total page count. -/
theorem c3_split_invalid_iff (file : UploadedFile) (pages : List Nat)
    (s e : Int) (ids : List String) (fs : FS)
    (hc : file.content = FileData.pdf pages) :
    (resInvalid (split_pdf true file s e ids fs).1 = true ↔
      endsWithStr (lowerStr file.filename) (".pdf") = false ∨
      s < 1 ∨ e < s ∨ e > (pages.length : Int)) ∧
    (endsWithStr (lowerStr file.filename) (".pdf") = true →
      (s < 1 ∨ e < s ∨ e > (pages.length : Int)) →
      (split_pdf true file s e ids fs).1 = .error (.invalidInput
        ("Invalid page range. Document has " ++ toString pages.length ++ " pages."))) := by
  constructor
  · by_cases hx : endsWithStr (lowerStr file.filename) (".pdf") = true
    · by_cases hr : s < 1 ∨ e < s ∨ e > (pages.length : Int)
      · rw [split_reject file pages s e ids fs hx hc hr]
        simp [resInvalid, hr]
      · rw [split_accept file pages s e ids fs hx hc hr]
        simpa [resInvalid, hx] using hr
    · have hx' := Bool.eq_false_iff.mpr hx
      rw [split_badext file s e ids fs hx']
      simp [resInvalid, hx']
  · intro hxt hr
    rw [split_reject file pages s e ids fs hxt hc hr]

/-- C3 witness: the spec scenario — splitting a 5-page document with
end_page = 6 is rejected with a message naming "5 pages". -/
theorem c3_witness :
    ((⟨"doc.pdf", FileData.pdf [1, 2, 3, 4, 5]⟩ : UploadedFile).content =
      FileData.pdf [1, 2, 3, 4, 5]) ∧
    (resInvalid (split_pdf true ⟨"doc.pdf", FileData.pdf [1, 2, 3, 4, 5]⟩ 2 6
        ["u0", "u1"] []).1 = true ↔
      endsWithStr (lowerStr ("doc.pdf")) (".pdf") = false ∨
      (2 : Int) < 1 ∨ (6 : Int) < 2 ∨ (6 : Int) > (([1, 2, 3, 4, 5] : List Nat).length : Int)) ∧
    (split_pdf true ⟨"doc.pdf", FileData.pdf [1, 2, 3, 4, 5]⟩ 2 6 ["u0", "u1"] []).1 =
      .error (.invalidInput ("Invalid page range. Document has 5 pages.")) := by
  refine ⟨rfl, ?_, ?_⟩
  · exact (c3_split_invalid_iff ⟨"doc.pdf", FileData.pdf [1, 2, 3, 4, 5]⟩
      [1, 2, 3, 4, 5] 2 6 ["u0", "u1"] [] rfl).1
  · exact (c3_split_invalid_iff ⟨"doc.pdf", FileData.pdf [1, 2, 3, 4, 5]⟩
      [1, 2, 3, 4, 5] 2 6 ["u0", "u1"] [] rfl).2 (by decide) (by decide)


theorem resInvalid_error {α : Type} (e : ApiError) :
    resInvalid (Except.error e : Except ApiError α) = errInvalid e := by
  cases e <;> rfl

/-- C7: with the engine available and every uploaded file a well-formed
PDF document, the merge handler reports InvalidInput exactly when fewer
than two files are supplied or some file's extension is not .pdf. -/
theorem c7_merge_invalid_iff (files : List UploadedFile) (ids : List String) (fs : FS)
    (hpdf : ∀ f ∈ files, ∃ ps, f.content = FileData.pdf ps) :
    resInvalid (merge_pdfs true files ids fs).1 = true ↔
      files.length < 2 ∨
      ∃ f ∈ files, endsWithStr (lowerStr f.filename) (".pdf") = false := by
  by_cases hlen : files.length < 2
  · simp [merge_pdfs, hlen, resInvalid]
  · have hiff := mergeLoop_invalid_iff files ids [] [] fs hpdf
    rcases hml : mergeLoop files [] [] ids fs with ⟨r, sv, ids1, fs1⟩
    rw [hml] at hiff
    simp only at hiff
    simp only [merge_pdfs, hlen, if_false, Bool.not_true]
    rw [hml]
    cases r with
    | error e =>
      rw [resInvalid_error] at hiff
      constructor
      · intro h
        refine Or.inr (hiff.mp ?_)
        simpa [resInvalid_error] using h
      · intro h
        rcases h with h | h
        · exact h.elim
        · simpa [resInvalid_error] using hiff.mpr h
    | ok w =>
      have hnoex : ¬ ∃ f ∈ files, endsWithStr (lowerStr f.filename) (".pdf") = false := by
        intro hex
        have := hiff.mpr hex
        simp [resInvalid] at this
      rcases hti : takeId ids1 with ⟨outId, idsRest⟩
      simp [resInvalid, hlen, hnoex, hti]

/-- C7 witness: the spec scenario — a merge request with a single file
is InvalidInput. -/
theorem c7_witness :
    (∀ f ∈ ([⟨"one.pdf", FileData.pdf [1]⟩] : List UploadedFile),
      ∃ ps, f.content = FileData.pdf ps) ∧
    (resInvalid (merge_pdfs true ([⟨"one.pdf", FileData.pdf [1]⟩] : List UploadedFile)
        ["u0", "u1"] []).1 = true ↔
      ([⟨"one.pdf", FileData.pdf [1]⟩] : List UploadedFile).length < 2 ∨
      ∃ f ∈ ([⟨"one.pdf", FileData.pdf [1]⟩] : List UploadedFile),
        endsWithStr (lowerStr f.filename) (".pdf") = false) := by
  have hp : ∀ f ∈ ([⟨"one.pdf", FileData.pdf [1]⟩] : List UploadedFile),
      ∃ ps, f.content = FileData.pdf ps := by
    intro f hf
    rcases List.mem_singleton.mp hf with rfl
    exact ⟨[1], rfl⟩
  exact ⟨hp, c7_merge_invalid_iff _ ["u0", "u1"] [] hp⟩

/-- C4: for every valid merge request — at least two files, all with a
.pdf extension, all parsing as PDF documents, under uuid freshness — the
handler succeeds, the produced artifact is the concatenation of the
input documents' pages in input order, and its page count is the sum of
the input page counts. -/
theorem c4_merge_functional (files : List UploadedFile) (ids : List String) (fs : FS)
    (h2 : 2 ≤ files.length)
    (hext : ∀ f ∈ files, endsWithStr (lowerStr f.filename) (".pdf") = true)
    (hpdf : ∀ f ∈ files, ∃ ps, f.content = FileData.pdf ps)
    (hid : GoodIds ids) (hfr : FreshPaths (mergeWritePaths files ids) fs) :
    ∃ info, (merge_pdfs true files ids fs).1 = .ok info ∧
      (merge_pdfs true files ids fs).2 =
        (TEMP_DIR ++ "/" ++ info.file_id,
         FileData.pdf ((files.map contentPages).flatten)) :: fs ∧
      ((files.map contentPages).flatten).length =
        (files.map (fun f => (contentPages f).length)).sum := by
  rcases merge_full_spec files ids fs h2 hext hpdf hid hfr with ⟨info, hok, hfs⟩
  refine ⟨info, hok, hfs, ?_⟩
  rw [List.length_flatten, List.map_map]
  rfl

/-- C4 witness: the spec scenario — merging two one-page documents
yields a two-page artifact whose pages are the inputs in order. -/
theorem c4_witness :
    (2 ≤ ([⟨"x.pdf", FileData.pdf [10]⟩, ⟨"y.pdf", FileData.pdf [20]⟩] :
        List UploadedFile).length) ∧
    GoodIds ["a0", "a1", "a2"] ∧
    FreshPaths (mergeWritePaths
      ([⟨"x.pdf", FileData.pdf [10]⟩, ⟨"y.pdf", FileData.pdf [20]⟩] : List UploadedFile)
      ["a0", "a1", "a2"]) [] ∧
    (∃ info, (merge_pdfs true
        ([⟨"x.pdf", FileData.pdf [10]⟩, ⟨"y.pdf", FileData.pdf [20]⟩] : List UploadedFile)
        ["a0", "a1", "a2"] []).1 = .ok info ∧
      (merge_pdfs true
        ([⟨"x.pdf", FileData.pdf [10]⟩, ⟨"y.pdf", FileData.pdf [20]⟩] : List UploadedFile)
        ["a0", "a1", "a2"] []).2 =
        (TEMP_DIR ++ "/" ++ info.file_id,
         FileData.pdf ((([⟨"x.pdf", FileData.pdf [10]⟩, ⟨"y.pdf", FileData.pdf [20]⟩] :
            List UploadedFile).map contentPages).flatten)) :: [] ∧
      ((([⟨"x.pdf", FileData.pdf [10]⟩, ⟨"y.pdf", FileData.pdf [20]⟩] :
          List UploadedFile).map contentPages).flatten).length =
        (([⟨"x.pdf", FileData.pdf [10]⟩, ⟨"y.pdf", FileData.pdf [20]⟩] :
          List UploadedFile).map (fun f => (contentPages f).length)).sum) := by
  have hpdf : ∀ f ∈ ([⟨"x.pdf", FileData.pdf [10]⟩, ⟨"y.pdf", FileData.pdf [20]⟩] :
      List UploadedFile), ∃ ps, f.content = FileData.pdf ps := by
    intro f hf
    rcases List.mem_cons.mp hf with rfl | hf
    · exact ⟨[10], rfl⟩
    · rcases List.mem_singleton.mp hf with rfl
      exact ⟨[20], rfl⟩
  refine ⟨by decide, by decide, by decide, ?_⟩
  exact c4_merge_functional _ _ [] (by decide) (by decide) hpdf (by decide) (by decide)

/-- C5: for every valid split request with 1-indexed inclusive range
[s, e] on a well-formed PDF of N pages (1 ≤ s ≤ e ≤ N), the handler
succeeds, the artifact holds exactly the selected contiguous range, its
page count is e - s + 1, and output page i (0-indexed) is input page
s - 1 + i, so the range comes out in original order. -/
theorem c5_split_functional (file : UploadedFile) (pages : List Nat) (s e : Int)
    (ids : List String) (fs : FS)
    (hc : file.content = FileData.pdf pages)
    (hx : endsWithStr (lowerStr file.filename) (".pdf") = true)
    (h1 : 1 ≤ s) (h2 : s ≤ e) (h3 : e ≤ (pages.length : Int))
    (hid : GoodIds ids) (hfr : FreshPaths (splitWritePaths file ids) fs) :
    ∃ info, (split_pdf true file s e ids fs).1 = .ok info ∧
      (split_pdf true file s e ids fs).2 =
        (TEMP_DIR ++ "/" ++ info.file_id, FileData.pdf (splitSel pages s e)) :: fs ∧
      ((splitSel pages s e).length : Int) = e - s + 1 ∧
      (∀ i : Nat, i < (splitSel pages s e).length →
        (splitSel pages s e)[i]? = pages[s.toNat - 1 + i]?) := by
  rcases split_fresh_parts file ids fs hfr with ⟨hneq, hsrc, hout⟩
  have hr : ¬(s < 1 ∨ e < s ∨ e > (pages.length : Int)) := by omega
  have hacc := split_accept file pages s e ids fs hx hc hr
  have hname : ('/' : Char) ∉
      (("split_" ++ (takeId (takeId ids).2).1 ++ ".pdf") : String).data := by
    refine out_name_no_slash ("split_") (takeId (takeId ids).2).1 (by decide)
      (ids.drop 1) (goodIds_drop ids 1 hid) ?_
    rw [← takeId_snd ids]
    exact takeId_fst_mem _
  have hfid : (mkDownload
      (TEMP_DIR ++ "/" ++ ("split_" ++ (takeId (takeId ids).2).1 ++ ".pdf"))
      ("split_" ++ (takeId (takeId ids).2).1 ++ ".pdf")).file_id =
      "split_" ++ (takeId (takeId ids).2).1 ++ ".pdf" := by
    simp only [mkDownload]
    exact basename_temp _ hname
  refine ⟨mkDownload
      (TEMP_DIR ++ "/" ++ ("split_" ++ (takeId (takeId ids).2).1 ++ ".pdf"))
      ("split_" ++ (takeId (takeId ids).2).1 ++ ".pdf"), ?_, ?_, ?_, ?_⟩
  · rw [hacc]
  · rw [hfid, hacc]
    show removeAll [uploadDest (takeId ids).1 file.filename] _ = _
    refine removeAll_single_out _ _ _ _ fs ?_ hsrc
    intro he
    refine hneq ?_
    rw [takeId_snd ids] at he
    exact he.symm
  · simp only [splitSel, List.length_take, List.length_drop]
    omega
  · intro i hi
    have hlt : i < (e + 1 - s).toNat := by
      simp only [splitSel, List.length_take] at hi
      omega
    have hm : (s - 1).toNat = s.toNat - 1 := by omega
    simp only [splitSel]
    rw [List.getElem?_take, if_pos hlt, List.getElem?_drop, hm]

/-- C5 witness: the spec scenario — splitting a 5-page document with
start = 2, end = 4 yields the 3-page artifact of pages 2, 3, 4. -/
theorem c5_witness :
    ((⟨"doc.pdf", FileData.pdf [1, 2, 3, 4, 5]⟩ : UploadedFile).content =
      FileData.pdf [1, 2, 3, 4, 5]) ∧
    GoodIds ["s0", "s1"] ∧
    FreshPaths (splitWritePaths (⟨"doc.pdf", FileData.pdf [1, 2, 3, 4, 5]⟩ :
      UploadedFile) ["s0", "s1"]) [] ∧
    splitSel [1, 2, 3, 4, 5] 2 4 = [2, 3, 4] ∧
    (∃ info, (split_pdf true ⟨"doc.pdf", FileData.pdf [1, 2, 3, 4, 5]⟩ 2 4
        ["s0", "s1"] []).1 = .ok info ∧
      (split_pdf true ⟨"doc.pdf", FileData.pdf [1, 2, 3, 4, 5]⟩ 2 4
        ["s0", "s1"] []).2 =
        (TEMP_DIR ++ "/" ++ info.file_id,
         FileData.pdf (splitSel [1, 2, 3, 4, 5] 2 4)) :: [] ∧
      ((splitSel [1, 2, 3, 4, 5] 2 4).length : Int) = 4 - 2 + 1 ∧
      (∀ i : Nat, i < (splitSel [1, 2, 3, 4, 5] 2 4).length →
        (splitSel [1, 2, 3, 4, 5] 2 4)[i]? =
          ([1, 2, 3, 4, 5] : List Nat)[(2 : Int).toNat - 1 + i]?)) := by
  refine ⟨rfl, by decide, by decide, by decide, ?_⟩
  exact c5_split_functional ⟨"doc.pdf", FileData.pdf [1, 2, 3, 4, 5]⟩
    [1, 2, 3, 4, 5] 2 4 ["s0", "s1"] [] rfl (by decide) (by decide) (by decide)
    (by decide) (by decide) (by decide)

/-- C6: for every valid images-to-pdf request — a nonempty list of files
with supported extensions whose contents decode as images, under uuid
freshness — the handler succeeds and the artifact is a PDF with one page
per input image, in input order, so its page count equals the input
image count. -/
theorem c6_images_functional (imgs : List UploadedFile) (ids : List String) (fs : FS)
    (hne : imgs ≠ [])
    (hext : ∀ f ∈ imgs,
      (imageExts.any (fun ex => endsWithStr (lowerStr f.filename) ex)) = true)
    (himg : ∀ f ∈ imgs, ∃ im, f.content = FileData.img im)
    (hid : GoodIds ids) (hfr : FreshPaths (imagesWritePaths imgs ids) fs) :
    ∃ info, (images_to_pdf true imgs ids fs).1 = .ok info ∧
      (images_to_pdf true imgs ids fs).2 =
        (TEMP_DIR ++ "/" ++ info.file_id,
         FileData.pdf (imgs.map imageDatum)) :: fs ∧
      (imgs.map imageDatum).length = imgs.length := by
  rcases images_full_spec imgs ids fs hne hext himg hid hfr with ⟨info, hok, hfs⟩
  exact ⟨info, hok, hfs, List.length_map _ _⟩

/-- C6 witness: one .png plus one .jpg produce a two-page PDF whose
pages are the two images in order. -/
theorem c6_witness :
    (([⟨"p.png", FileData.img ⟨7, "L"⟩⟩, ⟨"q.jpg", FileData.img ⟨8, "RGBA"⟩⟩] :
      List UploadedFile) ≠ []) ∧
    GoodIds ["b0", "b1", "b2"] ∧
    FreshPaths (imagesWritePaths
      ([⟨"p.png", FileData.img ⟨7, "L"⟩⟩, ⟨"q.jpg", FileData.img ⟨8, "RGBA"⟩⟩] :
        List UploadedFile) ["b0", "b1", "b2"]) [] ∧
    (∃ info, (images_to_pdf true
        ([⟨"p.png", FileData.img ⟨7, "L"⟩⟩, ⟨"q.jpg", FileData.img ⟨8, "RGBA"⟩⟩] :
          List UploadedFile) ["b0", "b1", "b2"] []).1 = .ok info ∧
      (images_to_pdf true
        ([⟨"p.png", FileData.img ⟨7, "L"⟩⟩, ⟨"q.jpg", FileData.img ⟨8, "RGBA"⟩⟩] :
          List UploadedFile) ["b0", "b1", "b2"] []).2 =
        (TEMP_DIR ++ "/" ++ info.file_id,
         FileData.pdf ((([⟨"p.png", FileData.img ⟨7, "L"⟩⟩,
            ⟨"q.jpg", FileData.img ⟨8, "RGBA"⟩⟩] : List UploadedFile).map
              imageDatum))) :: [] ∧
      ((([⟨"p.png", FileData.img ⟨7, "L"⟩⟩, ⟨"q.jpg", FileData.img ⟨8, "RGBA"⟩⟩] :
          List UploadedFile).map imageDatum)).length =
        ([⟨"p.png", FileData.img ⟨7, "L"⟩⟩, ⟨"q.jpg", FileData.img ⟨8, "RGBA"⟩⟩] :
          List UploadedFile).length) := by
  have himg : ∀ f ∈ ([⟨"p.png", FileData.img ⟨7, "L"⟩⟩,
      ⟨"q.jpg", FileData.img ⟨8, "RGBA"⟩⟩] : List UploadedFile),
      ∃ im, f.content = FileData.img im := by
    intro f hf
    rcases List.mem_cons.mp hf with rfl | hf
    · exact ⟨⟨7, "L"⟩, rfl⟩
    · rcases List.mem_singleton.mp hf with rfl
      exact ⟨⟨8, "RGBA"⟩, rfl⟩
  refine ⟨by decide, by decide, by decide, ?_⟩
  exact c6_images_functional _ ["b0", "b1", "b2"] [] (by decide) (by decide) himg
    (by decide) (by decide)

/-- C2: for every handler invocation and every outcome, all uploaded
inputs saved during the invocation are gone when the handler returns:
on an error the temp directory is exactly what it was before the
request, and on success exactly the declared output artifact (named by
the returned file_id) has been added. Stated for all three handlers
under uuid freshness of the generated names. -/
theorem c2_cleanup_invariant :
    (∀ (engineOk : Bool) (files : List UploadedFile) (ids : List String) (fs : FS),
      GoodIds ids → FreshPaths (mergeWritePaths files ids) fs →
      (∀ err, (merge_pdfs engineOk files ids fs).1 = .error err →
        (merge_pdfs engineOk files ids fs).2 = fs) ∧
      (∀ info, (merge_pdfs engineOk files ids fs).1 = .ok info →
        ∃ d, (merge_pdfs engineOk files ids fs).2 =
          (TEMP_DIR ++ "/" ++ info.file_id, d) :: fs)) ∧
    (∀ (engineOk : Bool) (file : UploadedFile) (s e : Int) (ids : List String) (fs : FS),
      GoodIds ids → FreshPaths (splitWritePaths file ids) fs →
      (∀ err, (split_pdf engineOk file s e ids fs).1 = .error err →
        (split_pdf engineOk file s e ids fs).2 = fs) ∧
      (∀ info, (split_pdf engineOk file s e ids fs).1 = .ok info →
        ∃ d, (split_pdf engineOk file s e ids fs).2 =
          (TEMP_DIR ++ "/" ++ info.file_id, d) :: fs)) ∧
    (∀ (engineOk : Bool) (imgs : List UploadedFile) (ids : List String) (fs : FS),
      GoodIds ids → FreshPaths (imagesWritePaths imgs ids) fs →
      (∀ err, (images_to_pdf engineOk imgs ids fs).1 = .error err →
        (images_to_pdf engineOk imgs ids fs).2 = fs) ∧
      (∀ info, (images_to_pdf engineOk imgs ids fs).1 = .ok info →
        ∃ d, (images_to_pdf engineOk imgs ids fs).2 =
          (TEMP_DIR ++ "/" ++ info.file_id, d) :: fs)) :=
  ⟨fun engineOk files ids fs hid hfr =>
    ⟨fun err herr => merge_err_spec engineOk files ids fs err hfr herr,
     fun info hok => (merge_ok_spec engineOk files ids fs info hid hfr hok).2⟩,
   fun engineOk file s e ids fs hid hfr =>
    ⟨fun err herr => split_err_spec engineOk file s e ids fs err hfr herr,
     fun info hok => (split_ok_spec engineOk file s e ids fs info hid hfr hok).2⟩,
   fun engineOk imgs ids fs hid hfr =>
    ⟨fun err herr => images_err_spec engineOk imgs ids fs err hfr herr,
     fun info hok => (images_ok_spec engineOk imgs ids fs info hid hfr hok).2⟩⟩

/-- C2 witness: a successful merge leaves exactly its artifact behind; a
rejected split leaves the store untouched; a successful images-to-pdf
leaves exactly its artifact behind. -/
theorem c2_witness :
    (GoodIds ["u0", "u1", "u2"] ∧
     FreshPaths (mergeWritePaths
       ([⟨"a.pdf", FileData.pdf [1]⟩, ⟨"b.pdf", FileData.pdf [2, 3]⟩] :
         List UploadedFile) ["u0", "u1", "u2"]) [] ∧
     ∃ d, (merge_pdfs true
        ([⟨"a.pdf", FileData.pdf [1]⟩, ⟨"b.pdf", FileData.pdf [2, 3]⟩] :
          List UploadedFile) ["u0", "u1", "u2"] []).2 =
        (TEMP_DIR ++ "/" ++ ("merged_u2.pdf"), d) :: []) ∧
    (GoodIds ["v0", "v1"] ∧
     FreshPaths (splitWritePaths (⟨"d.pdf", FileData.pdf [1, 2]⟩ : UploadedFile)
       ["v0", "v1"]) [] ∧
     (split_pdf true (⟨"d.pdf", FileData.pdf [1, 2]⟩ : UploadedFile) 1 5
       ["v0", "v1"] []).2 = []) ∧
    (GoodIds ["w0", "w1"] ∧
     FreshPaths (imagesWritePaths
       ([⟨"p.png", FileData.img ⟨7, "L"⟩⟩] : List UploadedFile) ["w0", "w1"]) [] ∧
     ∃ d, (images_to_pdf true ([⟨"p.png", FileData.img ⟨7, "L"⟩⟩] :
        List UploadedFile) ["w0", "w1"] []).2 =
        (TEMP_DIR ++ "/" ++ ("images_w1.pdf"), d) :: []) := by
  refine ⟨⟨by decide, by decide, ?_⟩, ⟨by decide, by decide, ?_⟩,
    ⟨by decide, by decide, ?_⟩⟩
  · exact (c2_cleanup_invariant.1 true
      ([⟨"a.pdf", FileData.pdf [1]⟩, ⟨"b.pdf", FileData.pdf [2, 3]⟩] :
        List UploadedFile) ["u0", "u1", "u2"] [] (by decide) (by decide)).2
      ⟨"merged_u2.pdf", "merged_u2.pdf", "/api/download/merged_u2.pdf"⟩ (by decide)
  · exact (c2_cleanup_invariant.2.1 true (⟨"d.pdf", FileData.pdf [1, 2]⟩ :
      UploadedFile) 1 5 ["v0", "v1"] [] (by decide) (by decide)).1
      (.invalidInput ("Invalid page range. Document has 2 pages.")) (by decide)
  · exact (c2_cleanup_invariant.2.2 true ([⟨"p.png", FileData.img ⟨7, "L"⟩⟩] :
      List UploadedFile) ["w0", "w1"] [] (by decide) (by decide)).2
      ⟨"images_w1.pdf", "images_w1.pdf", "/api/download/images_w1.pdf"⟩ (by decide)

/-- C8 (amended): the download handler returns NotFound exactly when
nothing — file or always-present directory — exists at the resolved
path; a never-served identifier whose basename is none of "", ".", ".."
gets NotFound when the store holds only handler-shaped artifacts under
other names; and an identifier naming a stored artifact is served. The
amendment adds the basename proviso: identifiers like "." or ".."
resolve to directories that exist, so the handler does not return
NotFound for them even though no handler ever served them. -/
theorem c8_download_notfound_characterization :
    (∀ (fid : String) (fs : FS),
      resNotFound (download_file fid fs) = true ↔
        pathExistsB fs (TEMP_DIR ++ "/" ++ basename fid) = false) ∧
    (∀ (fid : String) (fs : FS),
      basename fid ≠ "" → basename fid ≠ "." → basename fid ≠ ".." →
      (∀ pr ∈ fs, pr.1 = TEMP_DIR ++ "/" ++ basename pr.1 ∧
        basename pr.1 ≠ "" ∧ basename pr.1 ≠ "." ∧ basename pr.1 ≠ ".." ∧
        basename pr.1 ≠ basename fid) →
      resNotFound (download_file fid fs) = true) ∧
    (∀ (name : String) (d : FileData) (fs : FS), ('/' : Char) ∉ name.data →
      download_file name ((TEMP_DIR ++ "/" ++ name, d) :: fs) =
        .ok { path := TEMP_DIR ++ "/" ++ name, filename := name,
              media_type := "application/pdf" }) :=
  ⟨download_notfound_iff, download_unserved, download_serves⟩

/-- C8 counterexample: the identifier "." was never served by any
handler (the store is empty), yet the handler does not return NotFound —
the resolved path is the temp root directory itself, which exists — so
"downloading an identifier never served by any handler returns
NotFound" fails as stated. -/
theorem c8_counterexample :
    resNotFound (download_file (".") ([] : FS)) = false ∧
    download_file (".") ([] : FS) =
      .ok { path := TEMP_DIR ++ "/" ++ basename ("."), filename := ".",
            media_type := "application/pdf" } := by
  exact ⟨by decide, by decide⟩

/-- C8 witness: an unknown identifier 404s on an empty store; an unknown
identifier 404s on a store holding a differently-named artifact; a
stored artifact is served. -/
theorem c8_witness :
    (resNotFound (download_file ("zzz.pdf") ([] : FS)) = true ↔
      pathExistsB ([] : FS) (TEMP_DIR ++ "/" ++ basename ("zzz.pdf")) = false) ∧
    (basename ("ghost.pdf") ≠ ".." ∧
      resNotFound (download_file ("ghost.pdf")
        ([("/tmp/processed_files/merged_u9.pdf", FileData.pdf [1])] : FS)) = true) ∧
    download_file ("split_u3.pdf")
        ([(TEMP_DIR ++ "/" ++ ("split_u3.pdf"), FileData.pdf [9])] : FS) =
      .ok { path := TEMP_DIR ++ "/" ++ ("split_u3.pdf"), filename := "split_u3.pdf",
            media_type := "application/pdf" } := by
  refine ⟨c8_download_notfound_characterization.1 ("zzz.pdf") [], ⟨by decide, ?_⟩,
    c8_download_notfound_characterization.2.2 ("split_u3.pdf") (FileData.pdf [9]) []
      (by decide)⟩
  refine c8_download_notfound_characterization.2.1 ("ghost.pdf") _
    (by decide) (by decide) (by decide) ?_
  intro pr hpr
  rcases List.mem_singleton.mp hpr with rfl
  exact ⟨by decide, by decide, by decide, by decide, by decide⟩

/-- C9: for every identifier returned by a successful operation handler,
the store then holds exactly one new artifact at the path obtained by
joining the temp root with that identifier; downloading the identifier
resolves to exactly that path (basename of the identifier reproduces
it), serves it with the identifier as suggested filename, and the bytes
read back are exactly the bytes the handler wrote. -/
theorem c9_roundtrip_download :
    (∀ (engineOk : Bool) (files : List UploadedFile) (ids : List String) (fs : FS)
       (info : DownloadInfo),
      GoodIds ids → FreshPaths (mergeWritePaths files ids) fs →
      (merge_pdfs engineOk files ids fs).1 = .ok info →
      ∃ d, (merge_pdfs engineOk files ids fs).2 =
          (TEMP_DIR ++ "/" ++ info.file_id, d) :: fs ∧
        download_file info.file_id ((merge_pdfs engineOk files ids fs).2) =
          .ok { path := TEMP_DIR ++ "/" ++ info.file_id, filename := info.file_id,
                media_type := "application/pdf" } ∧
        readFile ((merge_pdfs engineOk files ids fs).2)
          (TEMP_DIR ++ "/" ++ info.file_id) = some d) ∧
    (∀ (engineOk : Bool) (file : UploadedFile) (s e : Int) (ids : List String)
       (fs : FS) (info : DownloadInfo),
      GoodIds ids → FreshPaths (splitWritePaths file ids) fs →
      (split_pdf engineOk file s e ids fs).1 = .ok info →
      ∃ d, (split_pdf engineOk file s e ids fs).2 =
          (TEMP_DIR ++ "/" ++ info.file_id, d) :: fs ∧
        download_file info.file_id ((split_pdf engineOk file s e ids fs).2) =
          .ok { path := TEMP_DIR ++ "/" ++ info.file_id, filename := info.file_id,
                media_type := "application/pdf" } ∧
        readFile ((split_pdf engineOk file s e ids fs).2)
          (TEMP_DIR ++ "/" ++ info.file_id) = some d) ∧
    (∀ (engineOk : Bool) (imgs : List UploadedFile) (ids : List String) (fs : FS)
       (info : DownloadInfo),
      GoodIds ids → FreshPaths (imagesWritePaths imgs ids) fs →
      (images_to_pdf engineOk imgs ids fs).1 = .ok info →
      ∃ d, (images_to_pdf engineOk imgs ids fs).2 =
          (TEMP_DIR ++ "/" ++ info.file_id, d) :: fs ∧
        download_file info.file_id ((images_to_pdf engineOk imgs ids fs).2) =
          .ok { path := TEMP_DIR ++ "/" ++ info.file_id, filename := info.file_id,
                media_type := "application/pdf" } ∧
        readFile ((images_to_pdf engineOk imgs ids fs).2)
          (TEMP_DIR ++ "/" ++ info.file_id) = some d) := by
  refine ⟨?_, ?_, ?_⟩
  · intro engineOk files ids fs info hid hfr hok
    rcases merge_ok_spec engineOk files ids fs info hid hfr hok with ⟨hnos, d, hfs⟩
    refine ⟨d, hfs, ?_, ?_⟩
    · rw [hfs]
      exact download_serves info.file_id d fs hnos
    · rw [hfs]
      exact readFile_cons_self _ _ _
  · intro engineOk file s e ids fs info hid hfr hok
    rcases split_ok_spec engineOk file s e ids fs info hid hfr hok with ⟨hnos, d, hfs⟩
    refine ⟨d, hfs, ?_, ?_⟩
    · rw [hfs]
      exact download_serves info.file_id d fs hnos
    · rw [hfs]
      exact readFile_cons_self _ _ _
  · intro engineOk imgs ids fs info hid hfr hok
    rcases images_ok_spec engineOk imgs ids fs info hid hfr hok with ⟨hnos, d, hfs⟩
    refine ⟨d, hfs, ?_, ?_⟩
    · rw [hfs]
      exact download_serves info.file_id d fs hnos
    · rw [hfs]
      exact readFile_cons_self _ _ _

/-- C9 witness: a concrete merge, then downloading the returned
identifier serves exactly the artifact written. -/
theorem c9_witness :
    GoodIds ["c0", "c1", "c2"] ∧
    FreshPaths (mergeWritePaths
      ([⟨"m.pdf", FileData.pdf [5]⟩, ⟨"n.pdf", FileData.pdf [6]⟩] :
        List UploadedFile) ["c0", "c1", "c2"]) [] ∧
    (merge_pdfs true ([⟨"m.pdf", FileData.pdf [5]⟩, ⟨"n.pdf", FileData.pdf [6]⟩] :
      List UploadedFile) ["c0", "c1", "c2"] []).1 =
      .ok ⟨"merged_c2.pdf", "merged_c2.pdf", "/api/download/merged_c2.pdf"⟩ ∧
    ∃ d, (merge_pdfs true ([⟨"m.pdf", FileData.pdf [5]⟩, ⟨"n.pdf", FileData.pdf [6]⟩] :
        List UploadedFile) ["c0", "c1", "c2"] []).2 =
        (TEMP_DIR ++ "/" ++ ("merged_c2.pdf"), d) :: [] ∧
      download_file ("merged_c2.pdf")
        ((merge_pdfs true ([⟨"m.pdf", FileData.pdf [5]⟩, ⟨"n.pdf", FileData.pdf [6]⟩] :
          List UploadedFile) ["c0", "c1", "c2"] []).2) =
        .ok { path := TEMP_DIR ++ "/" ++ ("merged_c2.pdf"),
              filename := "merged_c2.pdf", media_type := "application/pdf" } ∧
      readFile ((merge_pdfs true
          ([⟨"m.pdf", FileData.pdf [5]⟩, ⟨"n.pdf", FileData.pdf [6]⟩] :
            List UploadedFile) ["c0", "c1", "c2"] []).2)
        (TEMP_DIR ++ "/" ++ ("merged_c2.pdf")) = some d := by
  refine ⟨by decide, by decide, by decide, ?_⟩
  exact c9_roundtrip_download.1 true
    ([⟨"m.pdf", FileData.pdf [5]⟩, ⟨"n.pdf", FileData.pdf [6]⟩] : List UploadedFile)
    ["c0", "c1", "c2"] []
    ⟨"merged_c2.pdf", "merged_c2.pdf", "/api/download/merged_c2.pdf"⟩
    (by decide) (by decide) (by decide)
